import Mathlib

/-!
Verification of the kingpin flag-alias resolver (alias.go), the argument
summary renderer (models.go) and the short-flag bundle expansion of the
parse driver, as a shallow embedding in Lean 4.

Conventions of the embedding:
* Go pointers to FlagClause are modelled as indices (Nat) into the
  group's flagOrder list; pointer equality becomes index equality.
* Go maps are modelled as association lists with in-place update
  (ainsert); a fresh Go map iterates in insertion order here.
* Go functions returning `error` become functions returning the mutated
  state together with a GoOutcome; mutations performed before an error is
  returned persist, exactly as in Go.  A Go runtime panic (index out of
  range) is the `panicked` outcome.
* `shorthand : Bool` models `shorthand != 0` (only this test occurs in
  the embedded code); `isSwitch : Bool` models
  `value.(boolFlag)` succeeding together with `IsBoolFlag()`.
-/

namespace Kingpin

/-- The `aliasKind` enumeration of alias.go. -/
inductive AliasKind where
  | none
  | name
  | negative
  | shortcut
deriving DecidableEq, Repr

/-- Association-list lookup, modelling Go map read `m[k]` (comma-ok form). -/
def alookup {α : Type} : List (String × α) → String → Option α
  | [], _ => Option.none
  | (k, v) :: rest, key => if k = key then some v else alookup rest key

/-- Association-list update, modelling Go map write `m[k] = v`. -/
def ainsert {α : Type} : List (String × α) → String → α → List (String × α)
  | [], key, v => [(key, v)]
  | (k, w) :: rest, key, v =>
      if k = key then (k, v) :: rest else (k, w) :: ainsert rest key v

/-- One declared flag (the fields of FlagClause read by alias.go).
`aliases` is the flag-level alias map of aliasMixin; user-declared
aliases carry kind `AliasKind.name`. -/
structure FlagClause where
  name : String
  shorthand : Bool
  isSwitch : Bool
  aliases : List (String × AliasKind)
  autoShortcut : Option Bool
deriving DecidableEq, Repr

instance : Inhabited FlagClause := ⟨⟨"", false, false, [], Option.none⟩⟩

/-- An entry of the group alias table: `flagAlias` embeds a *FlagClause
(here the flag's index) and the kind. -/
structure flagAlias where
  flag : Nat
  kind : AliasKind
deriving DecidableEq, Repr

/-- The flagGroup state used by alias.go: the declaration-time long-name
map, the declaration-ordered flag list, the group-level auto-shortcut
default and the lazily built alias table (nil map = `Option.none`). -/
structure flagGroup where
  long : List (String × Nat)
  flagOrder : List FlagClause
  autoShortcut : Bool
  aliases : Option (List (String × flagAlias))
deriving DecidableEq, Repr

/-- Outcome of a Go call: normal return, returned error, or runtime panic. -/
inductive GoOutcome where
  | ok
  | err (msg : String)
  | panicked
deriving DecidableEq, Repr

namespace flagGroup

/-- Dereference a flag index (a nil or dangling pointer never occurs in
the embedded code paths; out-of-range yields the default clause). -/
def flagAt (g : flagGroup) (fid : Nat) : FlagClause :=
  (g.flagOrder[fid]?).getD default

/-- The name of flag `fid`, as read through the pointer. -/
def flagName (g : flagGroup) (fid : Nat) : String := (g.flagAt fid).name

/-- The current alias table (empty when not yet initialized). -/
def tbl (g : flagGroup) : List (String × flagAlias) := g.aliases.getD []

/-- Write one flag back (pointer mutation of a flag owned by the group). -/
def setFlag (g : flagGroup) (fid : Nat) (f : FlagClause) : flagGroup :=
  { g with flagOrder := g.flagOrder.set fid f }

/-- Group-table write `fg.aliases[name] = v`. -/
def tblInsert (g : flagGroup) (k : String) (v : flagAlias) : flagGroup :=
  { g with aliases := some (ainsert g.tbl k v) }

/-- The effective auto-shortcut setting of flag `fid`: the flag-level
setting when configured, otherwise the group default. -/
def effAuto (g : flagGroup) (fid : Nat) : Bool :=
  ((g.flagAt fid).autoShortcut).getD g.autoShortcut

/-- FlagClause.addAlias: record an alias on the flag itself, failing when
the spelling is already recorded under a different kind. -/
def flagAddAlias (g : flagGroup) (fid : Nat) (a : String) (kind : AliasKind) :
    flagGroup × GoOutcome :=
  let f := g.flagAt fid
  match alookup f.aliases a with
  | some current =>
      if current = kind then
        (g.setFlag fid { f with aliases := ainsert f.aliases a kind }, .ok)
      else (g, .err ("Alias " ++ a ++ " already exist"))
  | Option.none =>
      (g.setFlag fid { f with aliases := ainsert f.aliases a kind }, .ok)

end flagGroup

/-- The message of aliasErrorf("Alias %s on %s is already associated to flag %s"). -/
def aliasAssocError (name flagName otherName : String) : String :=
  "Alias " ++ name ++ " on " ++ flagName ++ " is already associated to flag " ++ otherName

namespace flagGroup

/-- The tail of addGroupAlias once both conflict checks have passed: run
the addNegativeAlias call, write the group table entry, and record the
alias on the flag itself (wrapping a failure of that last step). -/
def addGroupAliasFinish (negStep : flagGroup → flagGroup × GoOutcome)
    (g : flagGroup) (name : String) (fid : Nat) (kind : AliasKind) :
    flagGroup × GoOutcome :=
  match negStep g with
  | (g1, .ok) =>
      let g2 := g1.tblInsert name ⟨fid, kind⟩
      match g2.flagAddAlias fid name kind with
      | (g3, .ok) => (g3, .ok)
      | (g3, .err e) =>
          (g3, .err ("Unable to add alias " ++ name ++ " to " ++
                     g3.flagName fid ++ ": " ++ e))
      | (g3, .panicked) => (g3, .panicked)
  | r => r

/-- Shared body of addGroupAlias, parametric in the addNegativeAlias call
it performs between the conflict checks and the table write (the call is
a no-op when the kind being registered is already negative). -/
def addGroupAliasWith (negStep : flagGroup → flagGroup × GoOutcome)
    (g : flagGroup) (name : String) (fid : Nat) (kind : AliasKind) :
    flagGroup × GoOutcome :=
  match alookup g.long name with
  | some existing =>
      (g, .err (aliasAssocError name (g.flagName fid) (g.flagName existing)))
  | Option.none =>
      match alookup g.tbl name with
      | some al =>
          if al.kind ≠ AliasKind.none ∧ (al.kind ≠ kind ∨ al.flag ≠ fid) then
            (g, .err (aliasAssocError name (g.flagName fid) (g.flagName al.flag)))
          else addGroupAliasFinish negStep g name fid kind
      | Option.none => addGroupAliasFinish negStep g name fid kind

/-- addGroupAlias specialised to kind = aliasNegative: the inner
addNegativeAlias call returns immediately for that kind. -/
def addGroupAliasN (g : flagGroup) (name : String) (fid : Nat) :
    flagGroup × GoOutcome :=
  addGroupAliasWith (fun g0 => (g0, .ok)) g name fid AliasKind.negative

/-- addNegativeAlias: when the flag is a boolean switch and the kind being
registered is not itself negative, register "no-"+name, and for a short
hyphen-free name also "n"+name, both as negative aliases. -/
def addNegativeAlias (g : flagGroup) (name : String) (fid : Nat)
    (kind : AliasKind) : flagGroup × GoOutcome :=
  if (g.flagAt fid).isSwitch = true ∧ kind ≠ AliasKind.negative then
    match g.addGroupAliasN ("no-" ++ name) fid with
    | (g1, .ok) =>
        if name.length ≤ 3 ∧ name.data.contains '-' = false then
          g1.addGroupAliasN ("n" ++ name) fid
        else (g1, .ok)
    | r => r
  else (g, .ok)

/-- addGroupAlias of alias.go. -/
def addGroupAlias (g : flagGroup) (name : String) (fid : Nat)
    (kind : AliasKind) : flagGroup × GoOutcome :=
  addGroupAliasWith (fun g0 => g0.addNegativeAlias name fid kind) g name fid kind

end flagGroup

/-- strings.Split(s, "-") over character lists. -/
def splitDash : List Char → List (List Char)
  | [] => [[]]
  | c :: rest =>
      if c = '-' then [] :: splitDash rest
      else
        match splitDash rest with
        | [] => [[c]]
        | w :: ws => (c :: w) :: ws

/-- The shortcut synthesis loop of addShortcut: the first byte of every
hyphen-separated word, concatenated.  `word[0]` on an empty word is an
index-out-of-range panic in Go, modelled by `Option.none`. -/
def synthShortcut (name : String) : Option String :=
  let words := splitDash name.data
  if words.all (fun w => !w.isEmpty) = true then
    some (String.mk (words.filterMap List.head?))
  else Option.none

namespace flagGroup

/-- The first two lines of addShortcut: when the flag's auto-shortcut
setting is not yet configured, point it at the group-level default. -/
def shortcutInit (g0 : flagGroup) (fid : Nat) : flagGroup :=
  if (g0.flagAt fid).autoShortcut = Option.none then
    g0.setFlag fid { g0.flagAt fid with autoShortcut := some g0.autoShortcut }
  else g0

/-- addShortcut of alias.go: default the flag's auto-shortcut setting from
the group, skip when disabled or when the flag has a shorthand letter and
the spelling is hyphen-free, otherwise register the synthesized shortcut
and its negative counterparts. -/
def addShortcut (g0 : flagGroup) (name : String) (fid : Nat) :
    flagGroup × GoOutcome :=
  let g := g0.shortcutInit fid
  if (g.flagAt fid).autoShortcut.getD false = false ∨
     ((g.flagAt fid).shorthand = true ∧ name.data.contains '-' = false) then (g, .ok)
  else
    match synthShortcut name with
    | Option.none => (g, .panicked)
    | some shortcut =>
        match g.addGroupAlias shortcut fid AliasKind.shortcut with
        | (g1, .ok) => g1.addNegativeAlias shortcut fid AliasKind.shortcut
        | r => r

/-- The inner loop of ensureAliases over one flag's alias map (entries of
kind other than aliasName are skipped). -/
def processAliases (g : flagGroup) (fid : Nat) :
    List (String × AliasKind) → flagGroup × GoOutcome
  | [] => (g, .ok)
  | (a, kind) :: rest =>
      if kind ≠ AliasKind.name then g.processAliases fid rest
      else
        match g.addGroupAlias a fid kind with
        | (g1, .ok) =>
            match g1.addShortcut a fid with
            | (g2, .ok) => g2.processAliases fid rest
            | r => r
        | r => r

/-- The outer loop of ensureAliases over flagOrder (by index): per flag,
addShortcut on the long name, addNegativeAlias on the long name, then the
inner loop over the flag's alias map as it stands at that point. -/
def buildFlags (g : flagGroup) : List Nat → flagGroup × GoOutcome
  | [] => (g, .ok)
  | fid :: rest =>
      match g.addShortcut (g.flagName fid) fid with
      | (g1, .ok) =>
          match g1.addNegativeAlias (g1.flagName fid) fid AliasKind.none with
          | (g2, .ok) =>
              match g2.processAliases fid (g2.flagAt fid).aliases with
              | (g3, .ok) => g3.buildFlags rest
              | r => r
          | r => r
      | r => r

/-- ensureAliases: a no-op when the table is already initialized,
otherwise initialize it to the empty map and run the build. -/
def ensureAliases (g : flagGroup) : flagGroup × GoOutcome :=
  match g.aliases with
  | some _ => (g, .ok)
  | Option.none =>
      buildFlags { g with aliases := some [] }
        (List.range g.flagOrder.length)

/-- resetAliases: clear the table and regenerate it. -/
def resetAliases (g : flagGroup) : flagGroup × GoOutcome :=
  ensureAliases { g with aliases := Option.none }

end flagGroup

/-- The result of getFlagAlias: the mutated group, the resolved flag (if
any), the invert signal, and the outcome. -/
structure ResolveResult where
  g : flagGroup
  flag : Option Nat
  invert : Bool
  err : GoOutcome
deriving DecidableEq, Repr

namespace flagGroup

/-- getFlagAlias: ensure the table, then resolve an exact canonical long
name first, otherwise consult the alias table; a negative entry sets the
invert signal. -/
def getFlagAlias (g : flagGroup) (name : String) : ResolveResult :=
  match g.ensureAliases with
  | (g1, .ok) =>
      match alookup g1.long name with
      | some fid => ⟨g1, some fid, false, .ok⟩
      | Option.none =>
          match alookup g1.tbl name with
          | some al =>
              if al.kind ≠ AliasKind.none then
                ⟨g1, some al.flag, decide (al.kind = AliasKind.negative), .ok⟩
              else ⟨g1, Option.none, false, .ok⟩
          | Option.none => ⟨g1, Option.none, false, .ok⟩
  | (g1, e) => ⟨g1, Option.none, false, e⟩

end flagGroup

/-- Build a group from declared flags: the long map holds each flag's
canonical name (later declarations overwrite, as Go map writes do), the
alias table is not yet initialized. -/
def mkGroup (flags : List FlagClause) (auto : Bool) : flagGroup :=
  { long := flags.enum.foldl (fun m p => ainsert m p.2.name p.1) []
    flagOrder := flags
    autoShortcut := auto
    aliases := Option.none }

/-! ## ArgSummary (models.go) -/

/-- The fields of ArgModel read by ArgSummary. -/
structure ArgModel where
  name : String
  required : Bool
deriving DecidableEq, Repr

/-- strings.Repeat. -/
def strRepeat (s : String) (n : Nat) : String :=
  String.join (List.replicate n s)

/-- The loop body of ArgSummary: the accumulator is (depth, out). -/
def argStep (acc : Nat × List String) (arg : ArgModel) : Nat × List String :=
  let h := "<" ++ arg.name ++ ">"
  if arg.required = false then (acc.1 + 1, acc.2 ++ ["[" ++ h])
  else (acc.1, acc.2 ++ [h])

/-- ArgSummary of models.go, embedded with its fold.  After the loop the
code writes `out[len(out)-1]`; on an empty argument list `out` is empty
and the index is out of range, a Go panic modelled by `Option.none`. -/
def ArgSummary (args : List ArgModel) : Option String :=
  let r := args.foldl argStep (0, [])
  match r.2.getLast? with
  | Option.none => Option.none
  | some last =>
      some (String.intercalate " " (r.2.dropLast ++ [last ++ strRepeat "]" r.1]))

/-- The spelled-out summary the claim describes: one piece per argument,
each non-required argument opening a bracket, and all opened brackets
closed after the last element. -/
def argPiece (a : ArgModel) : String :=
  if a.required = false then "[" ++ ("<" ++ a.name ++ ">") else "<" ++ a.name ++ ">"

/-- Append a string to the last element of a list. -/
def appendToLast : List String → String → List String
  | [], _ => []
  | [x], s => [x ++ s]
  | x :: y :: rest, s => x :: appendToLast (y :: rest) s

/-- Closed form of the claim's description of the summary string. -/
def argSummaryJoin (args : List ArgModel) : String :=
  String.intercalate " "
    (appendToLast (args.map argPiece)
      (strRepeat "]" (args.countP (fun a => a.required = false))))

/-! ## Short-flag bundle expansion (parse driver) -/

/-- A declared shorthand letter together with whether its flag is a
boolean switch. -/
structure ShortFlag where
  letter : Char
  isSwitch : Bool
deriving DecidableEq, Repr

/-- A binding produced by expanding a short-flag bundle. -/
inductive Binding where
  | switch (c : Char)
  | value (c : Char) (v : String)
deriving DecidableEq, Repr

/-- The outcome of expanding one short-flag token. -/
inductive BundleResult where
  | bound (bs : List Binding) (pending : Option Char)
  | unmanaged (tok : String)
  | unrecognizedError
deriving DecidableEq, Repr

/-- The bindings a bundle expansion retains. -/
def BundleResult.boundOf : BundleResult → List Binding
  | .bound bs _ => bs
  | _ => []

/-- Modelled from the spec: the letter-by-letter resolution walk of the
parse driver's short-flag bundle expansion (parser.go, which is not among
the provided sources; only its tests are).  Each letter is resolved
against the declared shorthand letters; a resolved switch letter binds
true and expansion continues; a resolved non-switch letter takes the
remainder of the token as its value (or, when nothing remains, the next
stream token, signalled by `pending`); an unresolved letter fails the
whole walk. -/
def resolveLetters (decls : List ShortFlag) : List Char → Option (List Binding × Option Char)
  | [] => some ([], Option.none)
  | c :: rest =>
      match decls.find? (fun d => d.letter == c) with
      | Option.none => Option.none
      | some d =>
          if d.isSwitch then
            match resolveLetters decls rest with
            | some (bs, pending) => some (.switch c :: bs, pending)
            | Option.none => Option.none
          else if rest.isEmpty then some ([], some c)
          else some ([.value c (String.mk rest)], Option.none)

/-- Modelled from the spec: expansion of one short-flag token by the
parse driver (parser.go, not among the provided sources).  On the first
unresolved letter, when unmanaged mode is enabled the entire original
token is treated as unmanaged input and no partial binding is retained;
otherwise it is an unrecognized-flag error. -/
def expandBundle (decls : List ShortFlag) (unmanagedMode : Bool) (tok : String) :
    BundleResult :=
  match resolveLetters decls (tok.data.drop 1) with
  | some (bs, pending) => .bound bs pending
  | Option.none => if unmanagedMode then .unmanaged tok else .unrecognizedError

/-! ## Concrete example groups (used by witnesses and counterexamples) -/

/-- A lone boolean switch named verbose. -/
def egVerbose : flagGroup := mkGroup [⟨"verbose", false, true, [], Option.none⟩] false

/-- The state of egVerbose after its alias table is built. -/
def egVerboseBuilt : flagGroup :=
  { long := [("verbose", 0)]
    flagOrder := [⟨"verbose", false, true, [("no-verbose", AliasKind.negative)], some false⟩]
    autoShortcut := false
    aliases := some [("no-verbose", ⟨0, AliasKind.negative⟩)] }

/-- A lone boolean switch with a one-letter name. -/
def egX : flagGroup := mkGroup [⟨"x", false, true, [], Option.none⟩] false

/-- The state of egX after its alias table is built. -/
def egXBuilt : flagGroup :=
  { long := [("x", 0)]
    flagOrder := [⟨"x", false, true,
      [("no-x", AliasKind.negative), ("nx", AliasKind.negative)], some false⟩]
    autoShortcut := false
    aliases := some [("no-x", ⟨0, AliasKind.negative⟩), ("nx", ⟨0, AliasKind.negative⟩)] }

/-- egXBuilt after one further successful registration of alias z. -/
def egXBuiltZ : flagGroup :=
  { long := [("x", 0)]
    flagOrder := [⟨"x", false, true,
      [("no-x", AliasKind.negative), ("nx", AliasKind.negative),
       ("no-z", AliasKind.negative), ("nz", AliasKind.negative),
       ("z", AliasKind.name)], some false⟩]
    autoShortcut := false
    aliases := some [("no-x", ⟨0, AliasKind.negative⟩), ("nx", ⟨0, AliasKind.negative⟩),
      ("no-z", ⟨0, AliasKind.negative⟩), ("nz", ⟨0, AliasKind.negative⟩),
      ("z", ⟨0, AliasKind.name⟩)] }

/-- A non-switch flag with a hyphenated name, a user alias, and the
group-level auto-shortcut enabled. -/
def egVL : flagGroup :=
  mkGroup [⟨"verbose-level", false, false, [("very-long", AliasKind.name)], Option.none⟩] true

/-- The state of egVL after its alias table is built. -/
def egVLBuilt : flagGroup :=
  { long := [("verbose-level", 0)]
    flagOrder := [⟨"verbose-level", false, false,
      [("very-long", AliasKind.name), ("vl", AliasKind.shortcut)], some true⟩]
    autoShortcut := true
    aliases := some [("vl", ⟨0, AliasKind.shortcut⟩), ("very-long", ⟨0, AliasKind.name⟩)] }

/-- A flag with auto-shortcut explicitly enabled, but which also has a
shorthand letter and a hyphen-free name, so addShortcut skips it. -/
def egAbc : flagGroup := mkGroup [⟨"abc", true, false, [], some true⟩] false

/-- Two boolean switches followed by a flag whose long name collides with
the second switch's negative alias. -/
def egC5 : flagGroup :=
  mkGroup [⟨"x", false, true, [], Option.none⟩, ⟨"y", false, true, [], Option.none⟩,
    ⟨"no-y", false, false, [], Option.none⟩] false

/-- The state of egC5 after its build fails: the table holds the entries
registered before the conflict. -/
def egC5Part : flagGroup :=
  { long := [("x", 0), ("y", 1), ("no-y", 2)]
    flagOrder := [⟨"x", false, true,
        [("no-x", AliasKind.negative), ("nx", AliasKind.negative)], some false⟩,
      ⟨"y", false, true, [], some false⟩,
      ⟨"no-y", false, false, [], Option.none⟩]
    autoShortcut := false
    aliases := some [("no-x", ⟨0, AliasKind.negative⟩), ("nx", ⟨0, AliasKind.negative⟩)] }

/-- A flag whose name starts with a hyphen, with auto-shortcut enabled:
shortcut synthesis hits an empty word. -/
def egPanic : flagGroup := mkGroup [⟨"-x", false, false, [], some true⟩] false

/-! ## Table invariants -/

/-- The alias-table invariant of the spec: every alias spelling occurs at
most once in the table, and no spelling in the table coincides with any
canonical long name of the group. -/
def flagGroup.aliasInvariant (g : flagGroup) : Prop :=
  (g.tbl.map Prod.fst).Nodup ∧
  ∀ k, (alookup g.tbl k).isSome = true → alookup g.long k = Option.none

/-- Negative table entries only ever point at boolean switches. -/
def flagGroup.negOnlySwitch (g : flagGroup) : Prop :=
  ∀ k v, alookup g.tbl k = some v → v.kind = AliasKind.negative →
    (g.flagAt v.flag).isSwitch = true

/-- Both table invariants together (used for the preservation proofs). -/
def flagGroup.tableWF (g : flagGroup) : Prop :=
  g.aliasInvariant ∧ g.negOnlySwitch

/-! ## Association-list lemmas -/

theorem alookup_ainsert_self {α : Type} (m : List (String × α)) (k : String) (v : α) :
    alookup (ainsert m k v) k = some v := by
  induction m with
  | nil => simp [ainsert, alookup]
  | cons p rest ih =>
      obtain ⟨k', w⟩ := p
      by_cases h : k' = k
      · simp [ainsert, h, alookup]
      · simp [ainsert, h, alookup, ih]

theorem alookup_ainsert_ne {α : Type} (m : List (String × α)) (k k' : String) (v : α)
    (h : k' ≠ k) : alookup (ainsert m k v) k' = alookup m k' := by
  induction m with
  | nil =>
      simp [ainsert, alookup]
      intro hk
      exact absurd hk.symm h
  | cons p rest ih =>
      obtain ⟨k0, w⟩ := p
      by_cases h0 : k0 = k
      · subst h0
        have : ¬ (k0 = k') := fun hh => h (hh.symm)
        simp [ainsert, alookup, this]
      · simp [ainsert, h0, alookup, ih]

theorem keys_ainsert {α : Type} (m : List (String × α)) (k : String) (v : α) :
    (ainsert m k v).map Prod.fst =
      if k ∈ m.map Prod.fst then m.map Prod.fst else m.map Prod.fst ++ [k] := by
  induction m with
  | nil => simp [ainsert]
  | cons p rest ih =>
      obtain ⟨k0, w⟩ := p
      by_cases h0 : k0 = k
      · subst h0
        simp [ainsert]
      · have h0' : ¬ k = k0 := fun hh => h0 hh.symm
        simp only [ainsert, if_neg h0, List.map_cons, ih]
        by_cases hm : k ∈ rest.map Prod.fst
        · simp [hm, h0']
        · simp [hm, h0']

theorem keys_ainsert_nodup {α : Type} (m : List (String × α)) (k : String) (v : α)
    (h : (m.map Prod.fst).Nodup) : ((ainsert m k v).map Prod.fst).Nodup := by
  rw [keys_ainsert]
  by_cases hm : k ∈ m.map Prod.fst
  · simpa [hm] using h
  · simp only [if_neg hm]
    refine List.Nodup.append h (List.nodup_singleton k) ?_
    intro x hx hx1
    simp only [List.mem_singleton] at hx1
    exact hm (hx1 ▸ hx)

theorem alookup_eq_none_iff {α : Type} (m : List (String × α)) (k : String) :
    alookup m k = Option.none ↔ k ∉ m.map Prod.fst := by
  induction m with
  | nil => simp [alookup]
  | cons p rest ih =>
      obtain ⟨k0, w⟩ := p
      by_cases h0 : k0 = k
      · subst h0
        simp [alookup]
      · have h0' : ¬ k = k0 := fun hh => h0 hh.symm
        simp [alookup, h0, ih, h0']

theorem alookup_isSome_iff {α : Type} (m : List (String × α)) (k : String) :
    (alookup m k).isSome = true ↔ k ∈ m.map Prod.fst := by
  rcases h : alookup m k with _ | v
  · simpa using (alookup_eq_none_iff m k).mp h
  · simp only [Option.isSome_some, true_iff]
    by_contra hk
    rw [(alookup_eq_none_iff m k).mpr hk] at h
    cases h

/-! ## String prefix disambiguation -/

theorem no_pre_ne (name : String) : "no-" ++ name ≠ name := by
  intro h
  have hl := congrArg String.length h
  rw [String.length_append] at hl
  have h3 : "no-".length = 3 := rfl
  omega

theorem n_pre_ne (name : String) : "n" ++ name ≠ name := by
  intro h
  have hl := congrArg String.length h
  rw [String.length_append] at hl
  have h1 : "n".length = 1 := rfl
  omega

theorem no_ne_n (name : String) : "no-" ++ name ≠ "n" ++ name := by
  intro h
  have hl := congrArg String.length h
  rw [String.length_append, String.length_append] at hl
  have h3 : "no-".length = 3 := rfl
  have h1 : "n".length = 1 := rfl
  omega

/-! ## splitDash lemmas -/

theorem splitDash_ne_nil (s : List Char) : splitDash s ≠ [] := by
  cases s with
  | nil => simp [splitDash]
  | cons c rest =>
      by_cases h : c = '-'
      · simp [splitDash, h]
      · simp only [splitDash, if_neg h]
        rcases splitDash rest with _ | ⟨w, ws⟩ <;> simp

theorem splitDash_append_dash (x y : List Char) :
    splitDash (x ++ '-' :: y) = splitDash x ++ splitDash y := by
  induction x with
  | nil => simp [splitDash]
  | cons c x' ih =>
      by_cases h : c = '-'
      · simp [splitDash, h, ih]
      · rcases hx : splitDash x' with _ | ⟨w, ws⟩
        · exact absurd hx (splitDash_ne_nil x')
        · simp [splitDash, h, ih, hx]

theorem nil_mem_splitDash_leading (t : List Char) : [] ∈ splitDash ('-' :: t) := by
  simp [splitDash]

theorem nil_mem_splitDash_trailing (t : List Char) : [] ∈ splitDash (t ++ ['-']) := by
  have : (t ++ ['-'] : List Char) = t ++ '-' :: [] := rfl
  rw [this, splitDash_append_dash]
  simp [splitDash]

theorem nil_mem_splitDash_double (t u : List Char) :
    [] ∈ splitDash (t ++ '-' :: '-' :: u) := by
  rw [splitDash_append_dash]
  simp [splitDash]

/-! ## Declaration preservation: the Evolves relation

The build mutates only the alias table, the per-flag alias maps and the
per-flag auto-shortcut defaults; declarations (long map, names, shorthand
presence, switch-ness, group default, effective auto-shortcut) are stable,
flag-level alias entries persist, and table entries of a real kind
persist.  `Evolves g g'` packages all of that for a build step from `g`
to `g'`. -/

/-- The immutable signature of a flag: name, shorthand presence, switchness. -/
def flagSig (f : FlagClause) : String × Bool × Bool := (f.name, f.shorthand, f.isSwitch)

structure Evolves (g g' : flagGroup) : Prop where
  long_eq : g'.long = g.long
  auto_eq : g'.autoShortcut = g.autoShortcut
  sig_eq : g'.flagOrder.map flagSig = g.flagOrder.map flagSig
  flagAlias_mono : ∀ fid a k, alookup (g.flagAt fid).aliases a = some k →
      alookup (g'.flagAt fid).aliases a = some k
  effAuto_eq : ∀ fid, g'.effAuto fid = g.effAuto fid
  tbl_mono : ∀ k v, v.kind ≠ AliasKind.none → alookup g.tbl k = some v →
      alookup g'.tbl k = some v
  tblSome_mono : g.aliases.isSome = true → g'.aliases.isSome = true

theorem evolves_refl (g : flagGroup) : Evolves g g :=
  ⟨rfl, rfl, rfl, fun _ _ _ h => h, fun _ => rfl, fun _ _ _ h => h, id⟩

theorem evolves_trans {g g' g'' : flagGroup} (h1 : Evolves g g') (h2 : Evolves g' g'') :
    Evolves g g'' :=
  ⟨h2.long_eq.trans h1.long_eq, h2.auto_eq.trans h1.auto_eq, h2.sig_eq.trans h1.sig_eq,
   fun fid a k h => h2.flagAlias_mono fid a k (h1.flagAlias_mono fid a k h),
   fun fid => (h2.effAuto_eq fid).trans (h1.effAuto_eq fid),
   fun k v hk h => h2.tbl_mono k v hk (h1.tbl_mono k v hk h),
   fun h => h2.tblSome_mono (h1.tblSome_mono h)⟩

theorem Evolves.flagSig_at {g g' : flagGroup} (h : Evolves g g') (fid : Nat) :
    flagSig (g'.flagAt fid) = flagSig (g.flagAt fid) := by
  have h1 : Option.map flagSig g'.flagOrder[fid]? = Option.map flagSig g.flagOrder[fid]? := by
    rw [← List.getElem?_map, ← List.getElem?_map, h.sig_eq]
  unfold flagGroup.flagAt
  cases h2 : g.flagOrder[fid]? with
  | none =>
      rw [h2] at h1
      cases h3 : g'.flagOrder[fid]? with
      | none => rfl
      | some f => rw [h3] at h1; simp at h1
  | some f =>
      rw [h2] at h1
      cases h3 : g'.flagOrder[fid]? with
      | none => rw [h3] at h1; simp at h1
      | some f2 => rw [h3] at h1; simp at h1; simpa using h1

theorem Evolves.name_at {g g' : flagGroup} (h : Evolves g g') (fid : Nat) :
    (g'.flagAt fid).name = (g.flagAt fid).name :=
  congrArg Prod.fst (h.flagSig_at fid)

theorem Evolves.shorthand_at {g g' : flagGroup} (h : Evolves g g') (fid : Nat) :
    (g'.flagAt fid).shorthand = (g.flagAt fid).shorthand :=
  congrArg (fun p => p.2.1) (h.flagSig_at fid)

theorem Evolves.isSwitch_at {g g' : flagGroup} (h : Evolves g g') (fid : Nat) :
    (g'.flagAt fid).isSwitch = (g.flagAt fid).isSwitch :=
  congrArg (fun p => p.2.2) (h.flagSig_at fid)

theorem Evolves.flagName_eq {g g' : flagGroup} (h : Evolves g g') (fid : Nat) :
    g'.flagName fid = g.flagName fid :=
  h.name_at fid

theorem Evolves.length_eq {g g' : flagGroup} (h : Evolves g g') :
    g'.flagOrder.length = g.flagOrder.length := by
  have := congrArg List.length h.sig_eq
  simpa using this

/-! ### setFlag lemmas -/

theorem list_map_set_eq {α β : Type} (f : α → β) (l : List α) (i : Nat) (a : α)
    (h : ∀ x, l[i]? = some x → f a = f x) : (l.set i a).map f = l.map f := by
  induction l generalizing i with
  | nil => simp
  | cons x xs ih =>
      cases i with
      | zero =>
          have hx := h x (by simp)
          simp [List.set, hx]
      | succ n =>
          simp only [List.set, List.map_cons]
          rw [ih]
          intro y hy
          exact h y (by simpa using hy)

theorem setFlag_out {g : flagGroup} {fid : Nat} {f : FlagClause}
    (h : ¬ fid < g.flagOrder.length) : g.setFlag fid f = g := by
  unfold flagGroup.setFlag
  rw [List.set_eq_of_length_le (Nat.le_of_not_lt h)]

theorem flagAt_setFlag_self {g : flagGroup} {fid : Nat} (f : FlagClause)
    (h : fid < g.flagOrder.length) : (g.setFlag fid f).flagAt fid = f := by
  unfold flagGroup.setFlag flagGroup.flagAt
  simp [List.getElem?_set_self h]

theorem flagAt_setFlag_ne {g : flagGroup} {fid fid' : Nat} (f : FlagClause)
    (h : fid' ≠ fid) : (g.setFlag fid f).flagAt fid' = g.flagAt fid' := by
  unfold flagGroup.setFlag flagGroup.flagAt
  simp [List.getElem?_set_ne (fun hh => h hh.symm)]

theorem evolves_setFlag (g : flagGroup) (fid : Nat) (f' : FlagClause)
    (hsig : flagSig f' = flagSig (g.flagAt fid))
    (heff : (f'.autoShortcut).getD g.autoShortcut =
            ((g.flagAt fid).autoShortcut).getD g.autoShortcut)
    (hmono : ∀ a k, alookup (g.flagAt fid).aliases a = some k →
             alookup f'.aliases a = some k) :
    Evolves g (g.setFlag fid f') := by
  by_cases hr : fid < g.flagOrder.length
  · refine ⟨rfl, rfl, ?_, ?_, ?_, fun _ _ _ h => h, id⟩
    · show (g.flagOrder.set fid f').map flagSig = g.flagOrder.map flagSig
      apply list_map_set_eq
      intro x hx
      have hxx : g.flagAt fid = x := by unfold flagGroup.flagAt; rw [hx]; rfl
      rw [hsig, hxx]
    · intro fid' a k hk
      by_cases he : fid' = fid
      · subst he
        rw [flagAt_setFlag_self f' hr]
        exact hmono a k hk
      · rw [flagAt_setFlag_ne f' he]
        exact hk
    · intro fid'
      show ((g.setFlag fid f').flagAt fid').autoShortcut.getD g.autoShortcut =
           (g.flagAt fid').autoShortcut.getD g.autoShortcut
      by_cases he : fid' = fid
      · subst he
        rw [flagAt_setFlag_self f' hr]
        exact heff
      · rw [flagAt_setFlag_ne f' he]
  · rw [setFlag_out hr]
    exact evolves_refl g

/-! ### Per-operation Evolves and frame lemmas -/

theorem flagAddAlias_aliases (g : flagGroup) (fid : Nat) (a : String) (kind : AliasKind) :
    ((g.flagAddAlias fid a kind).1).aliases = g.aliases := by
  cases hl : alookup (g.flagAt fid).aliases a with
  | none => simp [flagGroup.flagAddAlias, hl, flagGroup.setFlag]
  | some current =>
      by_cases hc : current = kind <;>
        simp [flagGroup.flagAddAlias, hl, hc, flagGroup.setFlag]

theorem flagAddAlias_tbl (g : flagGroup) (fid : Nat) (a : String) (kind : AliasKind) :
    ((g.flagAddAlias fid a kind).1).tbl = g.tbl := by
  unfold flagGroup.tbl
  rw [flagAddAlias_aliases]

theorem flagAddAlias_ne_panicked (g : flagGroup) (fid : Nat) (a : String) (kind : AliasKind) :
    (g.flagAddAlias fid a kind).2 ≠ .panicked := by
  cases hl : alookup (g.flagAt fid).aliases a with
  | none => simp [flagGroup.flagAddAlias, hl]
  | some current =>
      by_cases hc : current = kind <;>
        simp [flagGroup.flagAddAlias, hl, hc]

theorem evolves_flagAddAlias (g : flagGroup) (fid : Nat) (a : String) (kind : AliasKind) :
    Evolves g (g.flagAddAlias fid a kind).1 := by
  cases hl : alookup (g.flagAt fid).aliases a with
  | none =>
      simp only [flagGroup.flagAddAlias, hl]
      apply evolves_setFlag
      · rfl
      · rfl
      · intro x k hk
        by_cases hx : x = a
        · subst hx
          rw [hl] at hk
          cases hk
        · show alookup (ainsert (g.flagAt fid).aliases a kind) x = some k
          rw [alookup_ainsert_ne _ _ _ _ hx]
          exact hk
  | some current =>
      by_cases hc : current = kind
      · simp only [flagGroup.flagAddAlias, hl, hc, if_pos rfl]
        apply evolves_setFlag
        · rfl
        · rfl
        · intro x k hk
          by_cases hx : x = a
          · rw [hx] at hk ⊢
            rw [hl] at hk
            show alookup (ainsert (g.flagAt fid).aliases a kind) a = some k
            rw [alookup_ainsert_self, ← hc]
            exact hk
          · show alookup (ainsert (g.flagAt fid).aliases a kind) x = some k
            rw [alookup_ainsert_ne _ _ _ _ hx]
            exact hk
      · simp only [flagGroup.flagAddAlias, hl, hc, if_neg hc]
        exact evolves_refl g

theorem evolves_tblInsert (g : flagGroup) (name : String) (v : flagAlias)
    (hpass : ∀ al, alookup g.tbl name = some al → al.kind ≠ AliasKind.none → al = v) :
    Evolves g (g.tblInsert name v) := by
  refine ⟨rfl, rfl, rfl, fun _ _ _ h => h, fun _ => rfl, ?_, fun _ => rfl⟩
  intro k w hk hw
  show alookup (ainsert g.tbl name v) k = some w
  by_cases hkn : k = name
  · subst hkn
    have := hpass w hw hk
    rw [alookup_ainsert_self, this]
  · rw [alookup_ainsert_ne _ _ _ _ hkn]
    exact hw

theorem evolves_addGroupAliasFinish (negStep : flagGroup → flagGroup × GoOutcome)
    (g : flagGroup) (name : String) (fid : Nat) (kind : AliasKind)
    (hns : Evolves g (negStep g).1)
    (hkey : alookup ((negStep g).1).tbl name = alookup g.tbl name)
    (hpass : ∀ al, alookup g.tbl name = some al → al.kind ≠ AliasKind.none →
             al.flag = fid ∧ al.kind = kind) :
    Evolves g (flagGroup.addGroupAliasFinish negStep g name fid kind).1 := by
  rcases hn : negStep g with ⟨g1, o⟩
  have h1 : Evolves g g1 := by rw [hn] at hns; exact hns
  cases o with
  | ok =>
      have h2 : Evolves g1 (g1.tblInsert name ⟨fid, kind⟩) := by
        apply evolves_tblInsert
        intro al hal hk
        rw [hn] at hkey
        simp only at hkey
        rw [hkey] at hal
        have hh := hpass al hal hk
        cases al
        simp only at hh
        simp [hh.1, hh.2]
      have h12 : Evolves g (g1.tblInsert name ⟨fid, kind⟩) := evolves_trans h1 h2
      have h3 : Evolves (g1.tblInsert name ⟨fid, kind⟩)
          (((g1.tblInsert name ⟨fid, kind⟩).flagAddAlias fid name kind).1) :=
        evolves_flagAddAlias _ fid name kind
      have h123 := evolves_trans h12 h3
      rcases hfa : (g1.tblInsert name ⟨fid, kind⟩).flagAddAlias fid name kind with ⟨g3, o3⟩
      rw [hfa] at h123
      simp only [flagGroup.addGroupAliasFinish, hn, hfa]
      cases o3 <;> simpa using h123
  | err e =>
      simp only [flagGroup.addGroupAliasFinish, hn]
      exact h1
  | panicked =>
      simp only [flagGroup.addGroupAliasFinish, hn]
      exact h1

theorem tbl_other_addGroupAliasFinish (negStep : flagGroup → flagGroup × GoOutcome)
    (g : flagGroup) (name : String) (fid : Nat) (kind : AliasKind)
    (hother : ∀ k, k ≠ name → alookup ((negStep g).1).tbl k = alookup g.tbl k) :
    ∀ k, k ≠ name →
      alookup ((flagGroup.addGroupAliasFinish negStep g name fid kind).1).tbl k =
        alookup g.tbl k := by
  intro k hk
  rcases hn : negStep g with ⟨g1, o⟩
  have ho : alookup g1.tbl k = alookup g.tbl k := by
    have hh := hother k hk
    rw [hn] at hh
    exact hh
  cases o with
  | ok =>
      rcases hfa : (g1.tblInsert name ⟨fid, kind⟩).flagAddAlias fid name kind with ⟨g3, o3⟩
      have ht3 : g3.tbl = (g1.tblInsert name ⟨fid, kind⟩).tbl := by
        have hh := flagAddAlias_tbl (g1.tblInsert name ⟨fid, kind⟩) fid name kind
        rw [hfa] at hh
        exact hh
      have hins : alookup ((g1.tblInsert name ⟨fid, kind⟩)).tbl k = alookup g1.tbl k := by
        show alookup (ainsert g1.tbl name ⟨fid, kind⟩) k = alookup g1.tbl k
        exact alookup_ainsert_ne _ _ _ _ hk
      simp only [flagGroup.addGroupAliasFinish, hn, hfa]
      cases o3 <;> simp only [] <;> rw [ht3, hins, ho]
  | err e =>
      simp only [flagGroup.addGroupAliasFinish, hn]
      exact ho
  | panicked =>
      simp only [flagGroup.addGroupAliasFinish, hn]
      exact ho

theorem tbl_other_addGroupAliasWith (negStep : flagGroup → flagGroup × GoOutcome)
    (g : flagGroup) (name : String) (fid : Nat) (kind : AliasKind)
    (hother : ∀ k, k ≠ name → alookup ((negStep g).1).tbl k = alookup g.tbl k) :
    ∀ k, k ≠ name →
      alookup ((flagGroup.addGroupAliasWith negStep g name fid kind).1).tbl k =
        alookup g.tbl k := by
  intro k hk
  cases hl : alookup g.long name with
  | some existing => simp only [flagGroup.addGroupAliasWith, hl]
  | none =>
      cases ht : alookup g.tbl name with
      | none =>
          simp only [flagGroup.addGroupAliasWith, hl, ht]
          exact tbl_other_addGroupAliasFinish negStep g name fid kind hother k hk
      | some al =>
          by_cases hc : al.kind ≠ AliasKind.none ∧ (al.kind ≠ kind ∨ al.flag ≠ fid)
          · simp only [flagGroup.addGroupAliasWith, hl, ht, if_pos hc]
          · simp only [flagGroup.addGroupAliasWith, hl, ht, if_neg hc]
            exact tbl_other_addGroupAliasFinish negStep g name fid kind hother k hk

theorem tbl_other_addGroupAliasN (g : flagGroup) (name : String) (fid : Nat) :
    ∀ k, k ≠ name →
      alookup ((g.addGroupAliasN name fid).1).tbl k = alookup g.tbl k :=
  tbl_other_addGroupAliasWith _ g name fid AliasKind.negative (fun _ _ => rfl)

theorem tbl_other_addNegativeAlias (g : flagGroup) (name : String) (fid : Nat)
    (kind : AliasKind) :
    ∀ k, k ≠ "no-" ++ name → k ≠ "n" ++ name →
      alookup ((g.addNegativeAlias name fid kind).1).tbl k = alookup g.tbl k := by
  intro k h1 h2
  by_cases hg : (g.flagAt fid).isSwitch = true ∧ kind ≠ AliasKind.negative
  · rcases hn : g.addGroupAliasN ("no-" ++ name) fid with ⟨g1, o⟩
    have e1 : alookup g1.tbl k = alookup g.tbl k := by
      have hh := tbl_other_addGroupAliasN g ("no-" ++ name) fid k h1
      rw [hn] at hh
      exact hh
    cases o with
    | ok =>
        by_cases hc : name.length ≤ 3 ∧ name.data.contains '-' = false
        · simp only [flagGroup.addNegativeAlias, if_pos hg, hn, if_pos hc]
          have e2 := tbl_other_addGroupAliasN g1 ("n" ++ name) fid k h2
          rw [e2, e1]
        · simp only [flagGroup.addNegativeAlias, if_pos hg, hn, if_neg hc]
          exact e1
    | err e =>
        simp only [flagGroup.addNegativeAlias, if_pos hg, hn]
        exact e1
    | panicked =>
        simp only [flagGroup.addNegativeAlias, if_pos hg, hn]
        exact e1
  · simp only [flagGroup.addNegativeAlias, if_neg hg]

theorem evolves_addGroupAliasWith (negStep : flagGroup → flagGroup × GoOutcome)
    (g : flagGroup) (name : String) (fid : Nat) (kind : AliasKind)
    (hns : Evolves g (negStep g).1)
    (hkey : alookup ((negStep g).1).tbl name = alookup g.tbl name) :
    Evolves g (flagGroup.addGroupAliasWith negStep g name fid kind).1 := by
  cases hl : alookup g.long name with
  | some existing =>
      simp only [flagGroup.addGroupAliasWith, hl]
      exact evolves_refl g
  | none =>
      cases ht : alookup g.tbl name with
      | none =>
          simp only [flagGroup.addGroupAliasWith, hl, ht]
          apply evolves_addGroupAliasFinish negStep g name fid kind hns hkey
          intro al hal
          rw [ht] at hal
          cases hal
      | some al =>
          by_cases hc : al.kind ≠ AliasKind.none ∧ (al.kind ≠ kind ∨ al.flag ≠ fid)
          · simp only [flagGroup.addGroupAliasWith, hl, ht, if_pos hc]
            exact evolves_refl g
          · simp only [flagGroup.addGroupAliasWith, hl, ht, if_neg hc]
            apply evolves_addGroupAliasFinish negStep g name fid kind hns hkey
            intro al2 hal2 hk2
            rw [ht] at hal2
            cases hal2
            push_neg at hc
            exact ⟨(hc hk2).2, (hc hk2).1⟩

theorem evolves_addGroupAliasN (g : flagGroup) (name : String) (fid : Nat) :
    Evolves g (g.addGroupAliasN name fid).1 :=
  evolves_addGroupAliasWith _ g name fid AliasKind.negative (evolves_refl g) rfl

theorem evolves_addNegativeAlias (g : flagGroup) (name : String) (fid : Nat)
    (kind : AliasKind) :
    Evolves g (g.addNegativeAlias name fid kind).1 := by
  by_cases hg : (g.flagAt fid).isSwitch = true ∧ kind ≠ AliasKind.negative
  · rcases hn : g.addGroupAliasN ("no-" ++ name) fid with ⟨g1, o⟩
    have h1 : Evolves g g1 := by
      have hh := evolves_addGroupAliasN g ("no-" ++ name) fid
      rw [hn] at hh
      exact hh
    cases o with
    | ok =>
        by_cases hc : name.length ≤ 3 ∧ name.data.contains '-' = false
        · simp only [flagGroup.addNegativeAlias, if_pos hg, hn, if_pos hc]
          exact evolves_trans h1 (evolves_addGroupAliasN g1 ("n" ++ name) fid)
        · simp only [flagGroup.addNegativeAlias, if_pos hg, hn, if_neg hc]
          exact h1
    | err e =>
        simp only [flagGroup.addNegativeAlias, if_pos hg, hn]
        exact h1
    | panicked =>
        simp only [flagGroup.addNegativeAlias, if_pos hg, hn]
        exact h1
  · simp only [flagGroup.addNegativeAlias, if_neg hg]
    exact evolves_refl g

theorem evolves_addGroupAlias (g : flagGroup) (name : String) (fid : Nat)
    (kind : AliasKind) :
    Evolves g (g.addGroupAlias name fid kind).1 := by
  apply evolves_addGroupAliasWith _ g name fid kind
      (evolves_addNegativeAlias g name fid kind)
  exact tbl_other_addNegativeAlias g name fid kind name
    (Ne.symm (no_pre_ne name)) (Ne.symm (n_pre_ne name))

theorem evolves_shortcutInit (g0 : flagGroup) (fid : Nat) :
    Evolves g0 (g0.shortcutInit fid) := by
  unfold flagGroup.shortcutInit
  by_cases hb : (g0.flagAt fid).autoShortcut = Option.none
  · rw [if_pos hb]
    apply evolves_setFlag
    · rfl
    · simp [hb]
    · intro a k h
      exact h
  · rw [if_neg hb]
    exact evolves_refl g0

theorem evolves_addShortcut (g0 : flagGroup) (name : String) (fid : Nat) :
    Evolves g0 (g0.addShortcut name fid).1 := by
  have hset := evolves_shortcutInit g0 fid
  by_cases hguard : ((g0.shortcutInit fid).flagAt fid).autoShortcut.getD false = false ∨
      ((g0.shortcutInit fid).flagAt fid).shorthand = true ∧ name.data.contains '-' = false
  · simp only [flagGroup.addShortcut, if_pos hguard]
    exact hset
  · cases hs : synthShortcut name with
    | none =>
        simp only [flagGroup.addShortcut, if_neg hguard, hs]
        exact hset
    | some sc =>
        rcases ha : (g0.shortcutInit fid).addGroupAlias sc fid AliasKind.shortcut with ⟨g1, o⟩
        have h1 : Evolves g0 g1 := by
          have hh := evolves_addGroupAlias (g0.shortcutInit fid) sc fid AliasKind.shortcut
          rw [ha] at hh
          exact evolves_trans hset hh
        cases o with
        | ok =>
            simp only [flagGroup.addShortcut, if_neg hguard, hs, ha]
            exact evolves_trans h1 (evolves_addNegativeAlias g1 sc fid AliasKind.shortcut)
        | err e =>
            simp only [flagGroup.addShortcut, if_neg hguard, hs, ha]
            exact h1
        | panicked =>
            simp only [flagGroup.addShortcut, if_neg hguard, hs, ha]
            exact h1

theorem evolves_processAliases (fid : Nat) :
    ∀ (l : List (String × AliasKind)) (g : flagGroup),
      Evolves g (g.processAliases fid l).1
  | [], g => evolves_refl g
  | (a, kind) :: rest, g => by
      by_cases hk : kind ≠ AliasKind.name
      · simp only [flagGroup.processAliases, if_pos hk]
        exact evolves_processAliases fid rest g
      · rcases ha : g.addGroupAlias a fid kind with ⟨g1, o⟩
        have h1 : Evolves g g1 := by
          have hh := evolves_addGroupAlias g a fid kind
          rw [ha] at hh
          exact hh
        cases o with
        | ok =>
            rcases hs : g1.addShortcut a fid with ⟨g2, o2⟩
            have h2 : Evolves g g2 := by
              have hh := evolves_addShortcut g1 a fid
              rw [hs] at hh
              exact evolves_trans h1 hh
            cases o2 with
            | ok =>
                simp only [flagGroup.processAliases, if_neg hk, ha, hs]
                exact evolves_trans h2 (evolves_processAliases fid rest g2)
            | err e =>
                simp only [flagGroup.processAliases, if_neg hk, ha, hs]
                exact h2
            | panicked =>
                simp only [flagGroup.processAliases, if_neg hk, ha, hs]
                exact h2
        | err e =>
            simp only [flagGroup.processAliases, if_neg hk, ha]
            exact h1
        | panicked =>
            simp only [flagGroup.processAliases, if_neg hk, ha]
            exact h1

theorem buildFlags_nil (g : flagGroup) : g.buildFlags [] = (g, .ok) := rfl

theorem buildFlags_cons (g : flagGroup) (fid : Nat) (rest : List Nat) :
    g.buildFlags (fid :: rest) =
      match g.addShortcut (g.flagName fid) fid with
      | (g1, .ok) =>
          match g1.addNegativeAlias (g1.flagName fid) fid AliasKind.none with
          | (g2, .ok) =>
              match g2.processAliases fid (g2.flagAt fid).aliases with
              | (g3, .ok) => g3.buildFlags rest
              | r => r
          | r => r
      | r => r := rfl

theorem evolves_buildFlags :
    ∀ (fids : List Nat) (g : flagGroup), Evolves g (g.buildFlags fids).1
  | [], g => evolves_refl g
  | fid :: rest, g => by
      rcases ha : g.addShortcut (g.flagName fid) fid with ⟨g1, o⟩
      have h1 : Evolves g g1 := by
        have hh := evolves_addShortcut g (g.flagName fid) fid
        rw [ha] at hh
        exact hh
      cases o with
      | ok =>
          rcases hb : g1.addNegativeAlias (g1.flagName fid) fid AliasKind.none with ⟨g2, o2⟩
          have h2 : Evolves g g2 := by
            have hh := evolves_addNegativeAlias g1 (g1.flagName fid) fid AliasKind.none
            rw [hb] at hh
            exact evolves_trans h1 hh
          cases o2 with
          | ok =>
              rcases hc : g2.processAliases fid (g2.flagAt fid).aliases with ⟨g3, o3⟩
              have h3 : Evolves g g3 := by
                have hh := evolves_processAliases fid (g2.flagAt fid).aliases g2
                rw [hc] at hh
                exact evolves_trans h2 hh
              cases o3 with
              | ok =>
                  rw [buildFlags_cons]
                  simp only [ha, hb, hc]
                  exact evolves_trans h3 (evolves_buildFlags rest g3)
              | err e =>
                  rw [buildFlags_cons]
                  simp only [ha, hb, hc]
                  exact h3
              | panicked =>
                  rw [buildFlags_cons]
                  simp only [ha, hb, hc]
                  exact h3
          | err e =>
              rw [buildFlags_cons]
              simp only [ha, hb]
              exact h2
          | panicked =>
              rw [buildFlags_cons]
              simp only [ha, hb]
              exact h2
      | err e =>
          rw [buildFlags_cons]
          simp only [ha]
          exact h1
      | panicked =>
          rw [buildFlags_cons]
          simp only [ha]
          exact h1

theorem evolves_ensureAliases (g : flagGroup) : Evolves g (g.ensureAliases).1 := by
  cases ha : g.aliases with
  | some t =>
      simp only [flagGroup.ensureAliases, ha]
      exact evolves_refl g
  | none =>
      have hinit : Evolves g { g with aliases := some [] } := by
        refine ⟨rfl, rfl, rfl, fun _ _ _ h => h, fun _ => rfl, ?_, fun _ => rfl⟩
        intro k v _ hv
        rw [flagGroup.tbl, ha] at hv
        simp [alookup] at hv
      simp only [flagGroup.ensureAliases, ha]
      exact evolves_trans hinit (evolves_buildFlags _ _)

/-! ## Invariant preservation -/

theorem alookup_mem {α : Type} {m : List (String × α)} {k : String} {v : α}
    (h : alookup m k = some v) : (k, v) ∈ m := by
  induction m with
  | nil => cases h
  | cons p rest ih =>
      obtain ⟨k0, w⟩ := p
      by_cases h0 : k0 = k
      · subst h0
        rw [alookup, if_pos rfl] at h
        cases h
        exact List.mem_cons_self _ _
      · rw [alookup, if_neg h0] at h
        exact List.mem_cons_of_mem _ (ih h)

theorem wf_of_eq {g g' : flagGroup} (ht : g'.tbl = g.tbl) (hl : g'.long = g.long)
    (hsw : ∀ i, (g'.flagAt i).isSwitch = (g.flagAt i).isSwitch)
    (h : g.tableWF) : g'.tableWF := by
  obtain ⟨⟨h1, h2⟩, h3⟩ := h
  refine ⟨⟨?_, ?_⟩, ?_⟩
  · rw [ht]
    exact h1
  · intro k hk
    rw [ht] at hk
    rw [hl]
    exact h2 k hk
  · intro k v hv hneg
    rw [ht] at hv
    rw [hsw]
    exact h3 k v hv hneg

theorem wf_tblInsert {g : flagGroup} (name : String) (v : flagAlias)
    (hlong : alookup g.long name = Option.none)
    (hv : v.kind = AliasKind.negative → (g.flagAt v.flag).isSwitch = true)
    (h : g.tableWF) : (g.tblInsert name v).tableWF := by
  obtain ⟨⟨h1, h2⟩, h3⟩ := h
  refine ⟨⟨?_, ?_⟩, ?_⟩
  · show ((ainsert g.tbl name v).map Prod.fst).Nodup
    exact keys_ainsert_nodup _ _ _ h1
  · intro k hk
    show alookup g.long k = Option.none
    by_cases hkn : k = name
    · rw [hkn]
      exact hlong
    · apply h2
      have : alookup (g.tblInsert name v).tbl k = alookup g.tbl k := by
        show alookup (ainsert g.tbl name v) k = alookup g.tbl k
        exact alookup_ainsert_ne _ _ _ _ hkn
      rw [this] at hk
      exact hk
  · intro k w hw hneg
    show (g.flagAt w.flag).isSwitch = true
    by_cases hkn : k = name
    · rw [hkn] at hw
      have : alookup (g.tblInsert name v).tbl name = some v := by
        show alookup (ainsert g.tbl name v) name = some v
        exact alookup_ainsert_self _ _ _
      rw [this] at hw
      cases hw
      exact hv hneg
    · have : alookup (g.tblInsert name v).tbl k = alookup g.tbl k := by
        show alookup (ainsert g.tbl name v) k = alookup g.tbl k
        exact alookup_ainsert_ne _ _ _ _ hkn
      rw [this] at hw
      exact h3 k w hw hneg

theorem wf_addGroupAliasFinish (negStep : flagGroup → flagGroup × GoOutcome)
    (g : flagGroup) (name : String) (fid : Nat) (kind : AliasKind)
    (hns_wf : g.tableWF → ((negStep g).1).tableWF)
    (hns_ev : Evolves g (negStep g).1)
    (hlong : alookup g.long name = Option.none)
    (hkindsw : kind = AliasKind.negative → (g.flagAt fid).isSwitch = true)
    (h : g.tableWF) :
    ((flagGroup.addGroupAliasFinish negStep g name fid kind).1).tableWF := by
  rcases hn : negStep g with ⟨g1, o⟩
  have hw1 : g1.tableWF := by
    have hh := hns_wf h
    rw [hn] at hh
    exact hh
  have hev1 : Evolves g g1 := by rw [hn] at hns_ev; exact hns_ev
  cases o with
  | ok =>
      have hw2 : (g1.tblInsert name ⟨fid, kind⟩).tableWF := by
        apply wf_tblInsert name ⟨fid, kind⟩ ?_ ?_ hw1
        · rw [hev1.long_eq]
          exact hlong
        · intro hneg
          show (g1.flagAt fid).isSwitch = true
          rw [hev1.isSwitch_at]
          exact hkindsw hneg
      rcases hfa : (g1.tblInsert name ⟨fid, kind⟩).flagAddAlias fid name kind with ⟨g3, o3⟩
      have hev3 : Evolves (g1.tblInsert name ⟨fid, kind⟩) g3 := by
        have hh := evolves_flagAddAlias (g1.tblInsert name ⟨fid, kind⟩) fid name kind
        rw [hfa] at hh
        exact hh
      have ht3 : g3.tbl = (g1.tblInsert name ⟨fid, kind⟩).tbl := by
        have hh := flagAddAlias_tbl (g1.tblInsert name ⟨fid, kind⟩) fid name kind
        rw [hfa] at hh
        exact hh
      have hw3 : g3.tableWF :=
        wf_of_eq ht3 hev3.long_eq (fun i => hev3.isSwitch_at i) hw2
      simp only [flagGroup.addGroupAliasFinish, hn, hfa]
      cases o3 <;> simpa using hw3
  | err e =>
      simp only [flagGroup.addGroupAliasFinish, hn]
      exact hw1
  | panicked =>
      simp only [flagGroup.addGroupAliasFinish, hn]
      exact hw1

theorem wf_addGroupAliasWith (negStep : flagGroup → flagGroup × GoOutcome)
    (g : flagGroup) (name : String) (fid : Nat) (kind : AliasKind)
    (hns_wf : g.tableWF → ((negStep g).1).tableWF)
    (hns_ev : Evolves g (negStep g).1)
    (hkindsw : kind = AliasKind.negative → (g.flagAt fid).isSwitch = true)
    (h : g.tableWF) :
    ((flagGroup.addGroupAliasWith negStep g name fid kind).1).tableWF := by
  cases hl : alookup g.long name with
  | some existing =>
      simp only [flagGroup.addGroupAliasWith, hl]
      exact h
  | none =>
      cases ht : alookup g.tbl name with
      | none =>
          simp only [flagGroup.addGroupAliasWith, hl, ht]
          exact wf_addGroupAliasFinish negStep g name fid kind hns_wf hns_ev hl hkindsw h
      | some al =>
          by_cases hc : al.kind ≠ AliasKind.none ∧ (al.kind ≠ kind ∨ al.flag ≠ fid)
          · simp only [flagGroup.addGroupAliasWith, hl, ht, if_pos hc]
            exact h
          · simp only [flagGroup.addGroupAliasWith, hl, ht, if_neg hc]
            exact wf_addGroupAliasFinish negStep g name fid kind hns_wf hns_ev hl hkindsw h

theorem wf_addGroupAliasN (g : flagGroup) (name : String) (fid : Nat)
    (hsw : (g.flagAt fid).isSwitch = true) (h : g.tableWF) :
    ((g.addGroupAliasN name fid).1).tableWF :=
  wf_addGroupAliasWith _ g name fid AliasKind.negative (fun hh => hh) (evolves_refl g)
    (fun _ => hsw) h

theorem wf_addNegativeAlias (g : flagGroup) (name : String) (fid : Nat)
    (kind : AliasKind) (h : g.tableWF) :
    ((g.addNegativeAlias name fid kind).1).tableWF := by
  by_cases hg : (g.flagAt fid).isSwitch = true ∧ kind ≠ AliasKind.negative
  · rcases hn : g.addGroupAliasN ("no-" ++ name) fid with ⟨g1, o⟩
    have hw1 : g1.tableWF := by
      have hh := wf_addGroupAliasN g ("no-" ++ name) fid hg.1 h
      rw [hn] at hh
      exact hh
    have hev1 : Evolves g g1 := by
      have hh := evolves_addGroupAliasN g ("no-" ++ name) fid
      rw [hn] at hh
      exact hh
    cases o with
    | ok =>
        by_cases hc : name.length ≤ 3 ∧ name.data.contains '-' = false
        · simp only [flagGroup.addNegativeAlias, if_pos hg, hn, if_pos hc]
          apply wf_addGroupAliasN g1 ("n" ++ name) fid ?_ hw1
          rw [hev1.isSwitch_at]
          exact hg.1
        · simp only [flagGroup.addNegativeAlias, if_pos hg, hn, if_neg hc]
          exact hw1
    | err e =>
        simp only [flagGroup.addNegativeAlias, if_pos hg, hn]
        exact hw1
    | panicked =>
        simp only [flagGroup.addNegativeAlias, if_pos hg, hn]
        exact hw1
  · simp only [flagGroup.addNegativeAlias, if_neg hg]
    exact h

theorem wf_addGroupAlias (g : flagGroup) (name : String) (fid : Nat)
    (kind : AliasKind)
    (hkindsw : kind = AliasKind.negative → (g.flagAt fid).isSwitch = true)
    (h : g.tableWF) :
    ((g.addGroupAlias name fid kind).1).tableWF :=
  wf_addGroupAliasWith _ g name fid kind
    (wf_addNegativeAlias g name fid kind)
    (evolves_addNegativeAlias g name fid kind) hkindsw h

theorem wf_addShortcut (g : flagGroup) (name : String) (fid : Nat)
    (h : g.tableWF) : ((g.addShortcut name fid).1).tableWF := by
  have hset : (g.shortcutInit fid).tableWF := by
    have hev := evolves_shortcutInit g fid
    apply wf_of_eq ?_ hev.long_eq (fun i => hev.isSwitch_at i) h
    unfold flagGroup.shortcutInit
    by_cases hb : (g.flagAt fid).autoShortcut = Option.none
    · rw [if_pos hb]
      rfl
    · rw [if_neg hb]
  by_cases hguard : ((g.shortcutInit fid).flagAt fid).autoShortcut.getD false = false ∨
      ((g.shortcutInit fid).flagAt fid).shorthand = true ∧ name.data.contains '-' = false
  · simp only [flagGroup.addShortcut, if_pos hguard]
    exact hset
  · cases hs : synthShortcut name with
    | none =>
        simp only [flagGroup.addShortcut, if_neg hguard, hs]
        exact hset
    | some sc =>
        rcases ha : (g.shortcutInit fid).addGroupAlias sc fid AliasKind.shortcut with ⟨g1, o⟩
        have hw1 : g1.tableWF := by
          have hh := wf_addGroupAlias (g.shortcutInit fid) sc fid AliasKind.shortcut
            (fun hk => by cases hk) hset
          rw [ha] at hh
          exact hh
        cases o with
        | ok =>
            simp only [flagGroup.addShortcut, if_neg hguard, hs, ha]
            exact wf_addNegativeAlias g1 sc fid AliasKind.shortcut hw1
        | err e =>
            simp only [flagGroup.addShortcut, if_neg hguard, hs, ha]
            exact hw1
        | panicked =>
            simp only [flagGroup.addShortcut, if_neg hguard, hs, ha]
            exact hw1

theorem wf_processAliases (fid : Nat) :
    ∀ (l : List (String × AliasKind)) (g : flagGroup), g.tableWF →
      ((g.processAliases fid l).1).tableWF
  | [], _, h => h
  | (a, kind) :: rest, g, h => by
      by_cases hk : kind ≠ AliasKind.name
      · simp only [flagGroup.processAliases, if_pos hk]
        exact wf_processAliases fid rest g h
      · push_neg at hk
        rcases ha : g.addGroupAlias a fid kind with ⟨g1, o⟩
        have hw1 : g1.tableWF := by
          have hh := wf_addGroupAlias g a fid kind (fun hkk => by rw [hk] at hkk; cases hkk) h
          rw [ha] at hh
          exact hh
        have hk' : ¬ kind ≠ AliasKind.name := by simp [hk]
        cases o with
        | ok =>
            rcases hs : g1.addShortcut a fid with ⟨g2, o2⟩
            have hw2 : g2.tableWF := by
              have hh := wf_addShortcut g1 a fid hw1
              rw [hs] at hh
              exact hh
            cases o2 with
            | ok =>
                simp only [flagGroup.processAliases, if_neg hk', ha, hs]
                exact wf_processAliases fid rest g2 hw2
            | err e =>
                simp only [flagGroup.processAliases, if_neg hk', ha, hs]
                exact hw2
            | panicked =>
                simp only [flagGroup.processAliases, if_neg hk', ha, hs]
                exact hw2
        | err e =>
            simp only [flagGroup.processAliases, if_neg hk', ha]
            exact hw1
        | panicked =>
            simp only [flagGroup.processAliases, if_neg hk', ha]
            exact hw1

theorem wf_buildFlags :
    ∀ (fids : List Nat) (g : flagGroup), g.tableWF → ((g.buildFlags fids).1).tableWF
  | [], _, h => h
  | fid :: rest, g, h => by
      rcases ha : g.addShortcut (g.flagName fid) fid with ⟨g1, o⟩
      have hw1 : g1.tableWF := by
        have hh := wf_addShortcut g (g.flagName fid) fid h
        rw [ha] at hh
        exact hh
      cases o with
      | ok =>
          rcases hb : g1.addNegativeAlias (g1.flagName fid) fid AliasKind.none with ⟨g2, o2⟩
          have hw2 : g2.tableWF := by
            have hh := wf_addNegativeAlias g1 (g1.flagName fid) fid AliasKind.none hw1
            rw [hb] at hh
            exact hh
          cases o2 with
          | ok =>
              rcases hc : g2.processAliases fid (g2.flagAt fid).aliases with ⟨g3, o3⟩
              have hw3 : g3.tableWF := by
                have hh := wf_processAliases fid (g2.flagAt fid).aliases g2 hw2
                rw [hc] at hh
                exact hh
              cases o3 with
              | ok =>
                  rw [buildFlags_cons]
                  simp only [ha, hb, hc]
                  exact wf_buildFlags rest g3 hw3
              | err e =>
                  rw [buildFlags_cons]
                  simp only [ha, hb, hc]
                  exact hw3
              | panicked =>
                  rw [buildFlags_cons]
                  simp only [ha, hb, hc]
                  exact hw3
          | err e =>
              rw [buildFlags_cons]
              simp only [ha, hb]
              exact hw2
          | panicked =>
              rw [buildFlags_cons]
              simp only [ha, hb]
              exact hw2
      | err e =>
          rw [buildFlags_cons]
          simp only [ha]
          exact hw1
      | panicked =>
          rw [buildFlags_cons]
          simp only [ha]
          exact hw1

theorem wf_ensureAliases_of_none {g : flagGroup} (hnone : g.aliases = Option.none) :
    ((g.ensureAliases).1).tableWF := by
  have hinit : ({ g with aliases := some [] } : flagGroup).tableWF := by
    refine ⟨⟨?_, ?_⟩, ?_⟩
    · show (([] : List (String × flagAlias)).map Prod.fst).Nodup
      simp
    · intro k hk
      simp [flagGroup.tbl, alookup] at hk
    · intro k v hv
      simp [flagGroup.tbl, alookup] at hv
  simp only [flagGroup.ensureAliases, hnone]
  exact wf_buildFlags _ _ hinit

/-! ## Success lemmas: what a successful registration guarantees -/

theorem ok_addGroupAliasFinish {negStep : flagGroup → flagGroup × GoOutcome}
    {g : flagGroup} {name : String} {fid : Nat} {kind : AliasKind} {g' : flagGroup}
    (h : flagGroup.addGroupAliasFinish negStep g name fid kind = (g', .ok)) :
    alookup g'.tbl name = some ⟨fid, kind⟩ := by
  rcases hn : negStep g with ⟨g1, o⟩
  cases o with
  | ok =>
      rcases hfa : (g1.tblInsert name ⟨fid, kind⟩).flagAddAlias fid name kind with ⟨g3, o3⟩
      have ht3 : g3.tbl = (g1.tblInsert name ⟨fid, kind⟩).tbl := by
        have hh := flagAddAlias_tbl (g1.tblInsert name ⟨fid, kind⟩) fid name kind
        rw [hfa] at hh
        exact hh
      simp only [flagGroup.addGroupAliasFinish, hn, hfa] at h
      cases o3 with
      | ok =>
          have hg : g3 = g' := congrArg Prod.fst h
          subst hg
          rw [ht3]
          show alookup (ainsert g1.tbl name ⟨fid, kind⟩) name = some ⟨fid, kind⟩
          exact alookup_ainsert_self _ _ _
      | err e => simp at h
      | panicked => simp at h
  | err e =>
      simp only [flagGroup.addGroupAliasFinish, hn] at h
      simp at h
  | panicked =>
      simp only [flagGroup.addGroupAliasFinish, hn] at h
      simp at h

theorem ok_addGroupAliasWith {negStep : flagGroup → flagGroup × GoOutcome}
    {g : flagGroup} {name : String} {fid : Nat} {kind : AliasKind} {g' : flagGroup}
    (h : flagGroup.addGroupAliasWith negStep g name fid kind = (g', .ok)) :
    alookup g'.tbl name = some ⟨fid, kind⟩ ∧ alookup g.long name = Option.none := by
  cases hl : alookup g.long name with
  | some existing =>
      simp only [flagGroup.addGroupAliasWith, hl] at h
      simp at h
  | none =>
      refine ⟨?_, rfl⟩
      cases ht : alookup g.tbl name with
      | none =>
          simp only [flagGroup.addGroupAliasWith, hl, ht] at h
          exact ok_addGroupAliasFinish h
      | some al =>
          by_cases hc : al.kind ≠ AliasKind.none ∧ (al.kind ≠ kind ∨ al.flag ≠ fid)
          · simp only [flagGroup.addGroupAliasWith, hl, ht, if_pos hc] at h
            simp at h
          · simp only [flagGroup.addGroupAliasWith, hl, ht, if_neg hc] at h
            exact ok_addGroupAliasFinish h

theorem ok_addGroupAliasN {g : flagGroup} {name : String} {fid : Nat} {g' : flagGroup}
    (h : g.addGroupAliasN name fid = (g', .ok)) :
    alookup g'.tbl name = some ⟨fid, AliasKind.negative⟩ :=
  (ok_addGroupAliasWith h).1

theorem ok_addGroupAlias {g : flagGroup} {name : String} {fid : Nat}
    {kind : AliasKind} {g' : flagGroup}
    (h : g.addGroupAlias name fid kind = (g', .ok)) :
    alookup g'.tbl name = some ⟨fid, kind⟩ :=
  (ok_addGroupAliasWith h).1

theorem ok_addNegativeAlias {g : flagGroup} {name : String} {fid : Nat}
    {kind : AliasKind} {g' : flagGroup}
    (h : g.addNegativeAlias name fid kind = (g', .ok))
    (hsw : (g.flagAt fid).isSwitch = true) (hk : kind ≠ AliasKind.negative) :
    alookup g'.tbl ("no-" ++ name) = some ⟨fid, AliasKind.negative⟩ ∧
    (name.length ≤ 3 ∧ name.data.contains '-' = false →
      alookup g'.tbl ("n" ++ name) = some ⟨fid, AliasKind.negative⟩) := by
  have hg : (g.flagAt fid).isSwitch = true ∧ kind ≠ AliasKind.negative := ⟨hsw, hk⟩
  rcases hn : g.addGroupAliasN ("no-" ++ name) fid with ⟨g1, o⟩
  cases o with
  | ok =>
      have e1 : alookup g1.tbl ("no-" ++ name) = some ⟨fid, AliasKind.negative⟩ :=
        ok_addGroupAliasN hn
      by_cases hc : name.length ≤ 3 ∧ name.data.contains '-' = false
      · simp only [flagGroup.addNegativeAlias, if_pos hg, hn, if_pos hc] at h
        constructor
        · have hfr := tbl_other_addGroupAliasN g1 ("n" ++ name) fid ("no-" ++ name)
            (no_ne_n name)
          rw [h] at hfr
          rw [hfr]
          exact e1
        · intro _
          exact ok_addGroupAliasN h
      · simp only [flagGroup.addNegativeAlias, if_pos hg, hn, if_neg hc] at h
        have hg1 : g1 = g' := congrArg Prod.fst h
        subst hg1
        exact ⟨e1, fun hc2 => absurd hc2 hc⟩
  | err e =>
      simp only [flagGroup.addNegativeAlias, if_pos hg, hn] at h
      simp at h
  | panicked =>
      simp only [flagGroup.addNegativeAlias, if_pos hg, hn] at h
      simp at h

theorem shortcutInit_auto (g : flagGroup) (fid : Nat) (hr : fid < g.flagOrder.length) :
    ((g.shortcutInit fid).flagAt fid).autoShortcut.getD false = g.effAuto fid := by
  unfold flagGroup.shortcutInit flagGroup.effAuto
  cases hb : (g.flagAt fid).autoShortcut with
  | none =>
      rw [if_pos rfl, flagAt_setFlag_self _ hr]
      simp
  | some b =>
      rw [if_neg (by simp)]
      simp [hb]

theorem addShortcut_guard_false {g : flagGroup} {name : String} {fid : Nat}
    (hr : fid < g.flagOrder.length) (heffa : g.effAuto fid = true)
    (hnsh : ¬((g.flagAt fid).shorthand = true ∧ name.data.contains '-' = false)) :
    ¬(((g.shortcutInit fid).flagAt fid).autoShortcut.getD false = false ∨
      ((g.shortcutInit fid).flagAt fid).shorthand = true ∧
        name.data.contains '-' = false) := by
  have hevi := evolves_shortcutInit g fid
  push_neg
  constructor
  · rw [shortcutInit_auto g fid hr, heffa]
    simp
  · intro hsh
    intro hnd
    apply hnsh
    refine ⟨?_, hnd⟩
    rw [← hevi.shorthand_at fid]
    exact hsh

theorem ok_addShortcut {g : flagGroup} {name : String} {fid : Nat} {g' : flagGroup}
    (h : g.addShortcut name fid = (g', .ok))
    (hr : fid < g.flagOrder.length)
    (heffa : g.effAuto fid = true)
    (hnsh : ¬((g.flagAt fid).shorthand = true ∧ name.data.contains '-' = false)) :
    ∃ sc, synthShortcut name = some sc ∧
      alookup g'.tbl sc = some ⟨fid, AliasKind.shortcut⟩ ∧
      ((g.flagAt fid).isSwitch = true →
        alookup g'.tbl ("no-" ++ sc) = some ⟨fid, AliasKind.negative⟩) := by
  have hevi := evolves_shortcutInit g fid
  have hguard := addShortcut_guard_false hr heffa hnsh
  cases hs : synthShortcut name with
  | none =>
      simp only [flagGroup.addShortcut, if_neg hguard, hs] at h
      simp at h
  | some sc =>
      rcases ha : (g.shortcutInit fid).addGroupAlias sc fid AliasKind.shortcut with ⟨g1, o⟩
      cases o with
      | ok =>
          have e1 : alookup g1.tbl sc = some ⟨fid, AliasKind.shortcut⟩ := ok_addGroupAlias ha
          have hev1 : Evolves g g1 := by
            have hh := evolves_addGroupAlias (g.shortcutInit fid) sc fid AliasKind.shortcut
            rw [ha] at hh
            exact evolves_trans hevi hh
          simp only [flagGroup.addShortcut, if_neg hguard, hs, ha] at h
          refine ⟨sc, rfl, ?_, ?_⟩
          · have hfr := tbl_other_addNegativeAlias g1 sc fid AliasKind.shortcut sc
              (Ne.symm (no_pre_ne sc)) (Ne.symm (n_pre_ne sc))
            rw [h] at hfr
            rw [hfr]
            exact e1
          · intro hsw
            have hsw1 : (g1.flagAt fid).isSwitch = true := by
              rw [hev1.isSwitch_at]
              exact hsw
            exact (ok_addNegativeAlias h hsw1 (by simp)).1
      | err e =>
          simp only [flagGroup.addShortcut, if_neg hguard, hs, ha] at h
          simp at h
      | panicked =>
          simp only [flagGroup.addShortcut, if_neg hguard, hs, ha] at h
          simp at h

theorem panic_addShortcut {g : flagGroup} {name : String} {fid : Nat}
    (hr : fid < g.flagOrder.length) (heffa : g.effAuto fid = true)
    (hnsh : ¬((g.flagAt fid).shorthand = true ∧ name.data.contains '-' = false))
    (hs : synthShortcut name = Option.none) :
    g.addShortcut name fid = (g.shortcutInit fid, .panicked) := by
  have hguard := addShortcut_guard_false hr heffa hnsh
  simp only [flagGroup.addShortcut, if_neg hguard, hs]

/-! ## Absence of panics away from shortcut synthesis -/

theorem addGroupAliasFinish_ne_panicked {negStep : flagGroup → flagGroup × GoOutcome}
    {g : flagGroup} {name : String} {fid : Nat} {kind : AliasKind}
    (hns : (negStep g).2 ≠ .panicked) :
    (flagGroup.addGroupAliasFinish negStep g name fid kind).2 ≠ .panicked := by
  rcases hn : negStep g with ⟨g1, o⟩
  cases o with
  | ok =>
      rcases hfa : (g1.tblInsert name ⟨fid, kind⟩).flagAddAlias fid name kind with ⟨g3, o3⟩
      have hnp := flagAddAlias_ne_panicked (g1.tblInsert name ⟨fid, kind⟩) fid name kind
      rw [hfa] at hnp
      simp only [flagGroup.addGroupAliasFinish, hn, hfa]
      cases o3 with
      | ok => simp
      | err e => simp
      | panicked => simp at hnp
  | err e =>
      simp only [flagGroup.addGroupAliasFinish, hn]
      simp
  | panicked =>
      rw [hn] at hns
      simp at hns

theorem addGroupAliasWith_ne_panicked {negStep : flagGroup → flagGroup × GoOutcome}
    {g : flagGroup} {name : String} {fid : Nat} {kind : AliasKind}
    (hns : (negStep g).2 ≠ .panicked) :
    (flagGroup.addGroupAliasWith negStep g name fid kind).2 ≠ .panicked := by
  cases hl : alookup g.long name with
  | some existing =>
      simp only [flagGroup.addGroupAliasWith, hl]
      simp
  | none =>
      cases ht : alookup g.tbl name with
      | none =>
          simp only [flagGroup.addGroupAliasWith, hl, ht]
          exact addGroupAliasFinish_ne_panicked hns
      | some al =>
          by_cases hc : al.kind ≠ AliasKind.none ∧ (al.kind ≠ kind ∨ al.flag ≠ fid)
          · simp only [flagGroup.addGroupAliasWith, hl, ht, if_pos hc]
            simp
          · simp only [flagGroup.addGroupAliasWith, hl, ht, if_neg hc]
            exact addGroupAliasFinish_ne_panicked hns

theorem addGroupAliasN_ne_panicked (g : flagGroup) (name : String) (fid : Nat) :
    (g.addGroupAliasN name fid).2 ≠ .panicked :=
  addGroupAliasWith_ne_panicked (by simp)

theorem addNegativeAlias_ne_panicked (g : flagGroup) (name : String) (fid : Nat)
    (kind : AliasKind) : (g.addNegativeAlias name fid kind).2 ≠ .panicked := by
  by_cases hg : (g.flagAt fid).isSwitch = true ∧ kind ≠ AliasKind.negative
  · rcases hn : g.addGroupAliasN ("no-" ++ name) fid with ⟨g1, o⟩
    have hnp := addGroupAliasN_ne_panicked g ("no-" ++ name) fid
    rw [hn] at hnp
    cases o with
    | ok =>
        by_cases hc : name.length ≤ 3 ∧ name.data.contains '-' = false
        · simp only [flagGroup.addNegativeAlias, if_pos hg, hn, if_pos hc]
          exact addGroupAliasN_ne_panicked g1 ("n" ++ name) fid
        · simp only [flagGroup.addNegativeAlias, if_pos hg, hn, if_neg hc]
          simp
    | err e =>
        simp only [flagGroup.addNegativeAlias, if_pos hg, hn]
        simp
    | panicked => simp at hnp
  · simp only [flagGroup.addNegativeAlias, if_neg hg]
    simp

theorem addGroupAlias_ne_panicked (g : flagGroup) (name : String) (fid : Nat)
    (kind : AliasKind) : (g.addGroupAlias name fid kind).2 ≠ .panicked :=
  addGroupAliasWith_ne_panicked (addNegativeAlias_ne_panicked g name fid kind)

theorem addShortcut_ne_panicked {g : flagGroup} {name : String} {fid : Nat}
    (hs : (synthShortcut name).isSome = true) :
    (g.addShortcut name fid).2 ≠ .panicked := by
  by_cases hguard : ((g.shortcutInit fid).flagAt fid).autoShortcut.getD false = false ∨
      ((g.shortcutInit fid).flagAt fid).shorthand = true ∧ name.data.contains '-' = false
  · simp only [flagGroup.addShortcut, if_pos hguard]
    simp
  · cases hsc : synthShortcut name with
    | none => rw [hsc] at hs; simp at hs
    | some sc =>
        rcases ha : (g.shortcutInit fid).addGroupAlias sc fid AliasKind.shortcut with ⟨g1, o⟩
        have hnp := addGroupAlias_ne_panicked (g.shortcutInit fid) sc fid AliasKind.shortcut
        rw [ha] at hnp
        cases o with
        | ok =>
            simp only [flagGroup.addShortcut, if_neg hguard, hsc, ha]
            exact addNegativeAlias_ne_panicked g1 sc fid AliasKind.shortcut
        | err e =>
            simp only [flagGroup.addShortcut, if_neg hguard, hsc, ha]
            simp
        | panicked => simp at hnp

/-- Every aliasName entry of the processed list ends up registered as a
positive alias for the flag, with its own auto-shortcut when applicable. -/
theorem ok_processAliases (fid : Nat) :
    ∀ (l : List (String × AliasKind)) (g g' : flagGroup),
      g.processAliases fid l = (g', .ok) →
      fid < g.flagOrder.length →
      ∀ p ∈ l, p.2 = AliasKind.name →
        alookup g'.tbl p.1 = some ⟨fid, AliasKind.name⟩ ∧
        (g.effAuto fid = true →
          ¬((g.flagAt fid).shorthand = true ∧ p.1.data.contains '-' = false) →
          ∃ sc, synthShortcut p.1 = some sc ∧
            alookup g'.tbl sc = some ⟨fid, AliasKind.shortcut⟩)
  | [], _, _, _, _, p, hp, _ => absurd hp (List.not_mem_nil p)
  | (a, kind) :: rest, g, g', h, hr, p, hp, hpk => by
      by_cases hk : kind ≠ AliasKind.name
      · simp only [flagGroup.processAliases, if_pos hk] at h
        rcases List.mem_cons.mp hp with hph | hpt
        · exact absurd (by rw [hph] at hpk; exact hpk) hk
        · exact ok_processAliases fid rest g g' h hr p hpt hpk
      · push_neg at hk
        subst hk
        have hk' : ¬ (AliasKind.name ≠ AliasKind.name) := by simp
        rcases ha : g.addGroupAlias a fid AliasKind.name with ⟨g1, o⟩
        cases o with
        | ok =>
            have hev1 : Evolves g g1 := by
              have hh := evolves_addGroupAlias g a fid AliasKind.name
              rw [ha] at hh
              exact hh
            rcases hs : g1.addShortcut a fid with ⟨g2, o2⟩
            cases o2 with
            | ok =>
                have hev2 : Evolves g1 g2 := by
                  have hh := evolves_addShortcut g1 a fid
                  rw [hs] at hh
                  exact hh
                have hev2' : Evolves g g2 := evolves_trans hev1 hev2
                simp only [flagGroup.processAliases, if_neg hk', ha, hs] at h
                have hevr : Evolves g2 g' := by
                  have hh := evolves_processAliases fid rest g2
                  rw [h] at hh
                  exact hh
                rcases List.mem_cons.mp hp with hph | hpt
                · have hpa : p.1 = a := by rw [hph]
                  have e1 : alookup g1.tbl a = some ⟨fid, AliasKind.name⟩ :=
                    ok_addGroupAlias ha
                  have e1' : alookup g'.tbl a = some ⟨fid, AliasKind.name⟩ :=
                    hevr.tbl_mono a _ (by simp)
                      (hev2.tbl_mono a _ (by simp) e1)
                  refine ⟨by rw [hpa]; exact e1', ?_⟩
                  intro heffa hnsh
                  rw [hpa] at hnsh
                  have hr1 : fid < g1.flagOrder.length := by
                    rw [hev1.length_eq]
                    exact hr
                  have heffa1 : g1.effAuto fid = true := by
                    rw [hev1.effAuto_eq]
                    exact heffa
                  have hnsh1 : ¬((g1.flagAt fid).shorthand = true ∧
                      a.data.contains '-' = false) := by
                    rw [hev1.shorthand_at]
                    exact hnsh
                  obtain ⟨sc, hsc, hsce, -⟩ := ok_addShortcut hs hr1 heffa1 hnsh1
                  refine ⟨sc, by rw [hpa]; exact hsc, ?_⟩
                  exact hevr.tbl_mono sc _ (by simp) hsce
                · have hr2 : fid < g2.flagOrder.length := by
                    rw [hev2'.length_eq]
                    exact hr
                  have ih := ok_processAliases fid rest g2 g' h hr2 p hpt hpk
                  refine ⟨ih.1, ?_⟩
                  intro heffa hnsh
                  apply ih.2
                  · rw [hev2'.effAuto_eq]
                    exact heffa
                  · rw [hev2'.shorthand_at fid]
                    exact hnsh
            | err e =>
                simp only [flagGroup.processAliases, if_neg hk', ha, hs] at h
                simp at h
            | panicked =>
                simp only [flagGroup.processAliases, if_neg hk', ha, hs] at h
                simp at h
        | err e =>
            simp only [flagGroup.processAliases, if_neg hk', ha] at h
            simp at h
        | panicked =>
            simp only [flagGroup.processAliases, if_neg hk', ha] at h
            simp at h

/-- What a successful build registers for every flag of the group: the
negative forms of a switch's long name, the auto-shortcut (with its
negative form for switches) when it applies, and every user-declared
alias together with its own auto-shortcut. -/
theorem buildFlags_entries :
    ∀ (fids : List Nat) (g g' : flagGroup),
      g.buildFlags fids = (g', .ok) →
      ∀ fid ∈ fids, fid < g.flagOrder.length →
        (((g.flagAt fid).isSwitch = true →
            alookup g'.tbl ("no-" ++ (g.flagAt fid).name) =
              some ⟨fid, AliasKind.negative⟩ ∧
            ((g.flagAt fid).name.length ≤ 3 ∧
                (g.flagAt fid).name.data.contains '-' = false →
              alookup g'.tbl ("n" ++ (g.flagAt fid).name) =
                some ⟨fid, AliasKind.negative⟩)) ∧
          (g.effAuto fid = true →
            ¬((g.flagAt fid).shorthand = true ∧
                (g.flagAt fid).name.data.contains '-' = false) →
            ∃ sc, synthShortcut (g.flagAt fid).name = some sc ∧
              alookup g'.tbl sc = some ⟨fid, AliasKind.shortcut⟩ ∧
              ((g.flagAt fid).isSwitch = true →
                alookup g'.tbl ("no-" ++ sc) = some ⟨fid, AliasKind.negative⟩)) ∧
          (∀ a, alookup (g.flagAt fid).aliases a = some AliasKind.name →
            alookup g'.tbl a = some ⟨fid, AliasKind.name⟩ ∧
            (g.effAuto fid = true →
              ¬((g.flagAt fid).shorthand = true ∧ a.data.contains '-' = false) →
              ∃ sc, synthShortcut a = some sc ∧
                alookup g'.tbl sc = some ⟨fid, AliasKind.shortcut⟩)))
  | [], _, _, _, fid, hf, _ => absurd hf (List.not_mem_nil fid)
  | f0 :: rest, g, g', h, fid, hf, hr => by
      rw [buildFlags_cons] at h
      rcases ha : g.addShortcut (g.flagName f0) f0 with ⟨g1, o⟩
      cases o with
      | err e => simp only [ha] at h; simp at h
      | panicked => simp only [ha] at h; simp at h
      | ok =>
          have hev1 : Evolves g g1 := by
            have hh := evolves_addShortcut g (g.flagName f0) f0
            rw [ha] at hh
            exact hh
          rcases hb : g1.addNegativeAlias (g1.flagName f0) f0 AliasKind.none with ⟨g2, o2⟩
          cases o2 with
          | err e => simp only [ha, hb] at h; simp at h
          | panicked => simp only [ha, hb] at h; simp at h
          | ok =>
              have hev2 : Evolves g1 g2 := by
                have hh := evolves_addNegativeAlias g1 (g1.flagName f0) f0 AliasKind.none
                rw [hb] at hh
                exact hh
              have hev12 : Evolves g g2 := evolves_trans hev1 hev2
              rcases hc : g2.processAliases f0 (g2.flagAt f0).aliases with ⟨g3, o3⟩
              cases o3 with
              | err e => simp only [ha, hb, hc] at h; simp at h
              | panicked => simp only [ha, hb, hc] at h; simp at h
              | ok =>
                  simp only [ha, hb, hc] at h
                  have hev3 : Evolves g2 g3 := by
                    have hh := evolves_processAliases f0 (g2.flagAt f0).aliases g2
                    rw [hc] at hh
                    exact hh
                  have hev13 : Evolves g g3 := evolves_trans hev12 hev3
                  have hevr : Evolves g3 g' := by
                    have hh := evolves_buildFlags rest g3
                    rw [h] at hh
                    exact hh
                  have hev2r : Evolves g2 g' := evolves_trans hev3 hevr
                  have hev1r : Evolves g1 g' := evolves_trans hev2 hev2r
                  rcases List.mem_cons.mp hf with hfh | hft
                  · subst hfh
                    refine ⟨?_, ?_, ?_⟩
                    · -- negatives for the long name
                      intro hsw
                      have hsw1 : (g1.flagAt fid).isSwitch = true := by
                        rw [hev1.isSwitch_at]
                        exact hsw
                      have hne := ok_addNegativeAlias hb hsw1 (by simp)
                      have hnm : g1.flagName fid = (g.flagAt fid).name :=
                        hev1.flagName_eq fid
                      rw [hnm] at hne
                      exact ⟨hev2r.tbl_mono _ _ (by simp) hne.1,
                        fun hcnd => hev2r.tbl_mono _ _ (by simp) (hne.2 hcnd)⟩
                    · -- the auto-shortcut and its negative form
                      intro heffa hnsh
                      obtain ⟨sc, hsc, hsce, hscn⟩ := ok_addShortcut ha hr heffa hnsh
                      refine ⟨sc, hsc, hev1r.tbl_mono _ _ (by simp) hsce, ?_⟩
                      intro hsw
                      exact hev1r.tbl_mono _ _ (by simp) (hscn hsw)
                    · -- user-declared aliases
                      intro a hga
                      have hga2 : alookup (g2.flagAt fid).aliases a =
                          some AliasKind.name :=
                        hev12.flagAlias_mono fid a _ hga
                      have hmem := alookup_mem hga2
                      have hr2 : fid < g2.flagOrder.length := by
                        rw [hev12.length_eq]
                        exact hr
                      have hpa := ok_processAliases fid _ g2 g3 hc hr2
                        (a, AliasKind.name) hmem rfl
                      refine ⟨hevr.tbl_mono _ _ (by simp) hpa.1, ?_⟩
                      intro heffa hnsh
                      have heffa2 : g2.effAuto fid = true := by
                        rw [hev12.effAuto_eq]
                        exact heffa
                      have hnsh2 : ¬((g2.flagAt fid).shorthand = true ∧
                          a.data.contains '-' = false) := by
                        rw [hev12.shorthand_at fid]
                        exact hnsh
                      obtain ⟨sc, hsc, hsce⟩ := hpa.2 heffa2 hnsh2
                      exact ⟨sc, hsc, hevr.tbl_mono _ _ (by simp) hsce⟩
                  · -- the flag is handled later in the fold
                    have hr3 : fid < g3.flagOrder.length := by
                      rw [hev13.length_eq]
                      exact hr
                    have ih := buildFlags_entries rest g3 g' h fid hft hr3
                    rw [hev13.isSwitch_at fid, hev13.name_at fid, hev13.effAuto_eq fid,
                        hev13.shorthand_at fid] at ih
                    exact ⟨ih.1, ih.2.1,
                      fun a hga => ih.2.2 a (hev13.flagAlias_mono fid a _ hga)⟩

/-! ## ensureAliases interface lemmas -/

theorem ensure_of_isSome {g : flagGroup} (h : g.aliases.isSome = true) :
    g.ensureAliases = (g, .ok) := by
  cases ha : g.aliases with
  | some t => simp [flagGroup.ensureAliases, ha]
  | none => rw [ha] at h; simp at h

theorem ensure_result_isSome {g : flagGroup} :
    (((g.ensureAliases).1).aliases).isSome = true := by
  cases ha : g.aliases with
  | some t =>
      simp only [flagGroup.ensureAliases, ha]
      simp [ha]
  | none =>
      simp only [flagGroup.ensureAliases, ha]
      have hev := evolves_buildFlags (List.range g.flagOrder.length)
        { g with aliases := some [] }
      exact hev.tblSome_mono rfl

/-! ## ArgSummary lemmas -/

theorem argStep_eq (acc : Nat × List String) (arg : ArgModel) :
    argStep acc arg =
      (if arg.required = false then acc.1 + 1 else acc.1,
       acc.2 ++ [argPiece arg]) := by
  by_cases h : arg.required = false <;> simp [argStep, argPiece, h]

theorem argSummary_fold :
    ∀ (args : List ArgModel) (d : Nat) (out : List String),
      args.foldl argStep (d, out) =
        (d + args.countP (fun a => a.required = false), out ++ args.map argPiece)
  | [], d, out => by simp
  | a :: rest, d, out => by
      rw [List.foldl_cons, argStep_eq, argSummary_fold rest]
      by_cases h : a.required = false
      · simp only [if_pos h, List.countP_cons, Prod.mk.injEq]
        refine ⟨?_, ?_⟩
        · simp [h]
          omega
        · simp
      · simp only [if_neg h, List.countP_cons, Prod.mk.injEq]
        refine ⟨?_, ?_⟩
        · simp [h]
        · simp

theorem appendToLast_eq (l : List String) (s last : String)
    (h : l.getLast? = some last) :
    appendToLast l s = l.dropLast ++ [last ++ s] := by
  induction l with
  | nil => cases h
  | cons x rest ih =>
      cases rest with
      | nil =>
          simp only [List.getLast?_singleton] at h
          cases h
          simp [appendToLast]
      | cons y t =>
          rw [List.getLast?_cons_cons] at h
          show x :: appendToLast (y :: t) s = (x :: y :: t).dropLast ++ [last ++ s]
          rw [ih h]
          simp [List.dropLast]

/-! ## Bundle expansion lemma -/

theorem expandBundle_unmanaged (decls : List ShortFlag) (tok : String)
    (hfail : resolveLetters decls (tok.data.drop 1) = Option.none) :
    expandBundle decls true tok = .unmanaged tok := by
  unfold expandBundle
  rw [hfail]
  simp

/-! ## aliasInvariant-only preservation (no switch-ness side conditions) -/

theorem inv_of_eq {g g' : flagGroup} (ht : g'.tbl = g.tbl) (hl : g'.long = g.long)
    (h : g.aliasInvariant) : g'.aliasInvariant := by
  obtain ⟨h1, h2⟩ := h
  refine ⟨?_, ?_⟩
  · rw [ht]
    exact h1
  · intro k hk
    rw [ht] at hk
    rw [hl]
    exact h2 k hk

theorem inv_tblInsert {g : flagGroup} (name : String) (v : flagAlias)
    (hlong : alookup g.long name = Option.none)
    (h : g.aliasInvariant) : (g.tblInsert name v).aliasInvariant := by
  obtain ⟨h1, h2⟩ := h
  refine ⟨?_, ?_⟩
  · show ((ainsert g.tbl name v).map Prod.fst).Nodup
    exact keys_ainsert_nodup _ _ _ h1
  · intro k hk
    show alookup g.long k = Option.none
    by_cases hkn : k = name
    · rw [hkn]
      exact hlong
    · apply h2
      have hh : alookup (g.tblInsert name v).tbl k = alookup g.tbl k := by
        show alookup (ainsert g.tbl name v) k = alookup g.tbl k
        exact alookup_ainsert_ne _ _ _ _ hkn
      rw [hh] at hk
      exact hk

theorem inv_addGroupAliasFinish (negStep : flagGroup → flagGroup × GoOutcome)
    (g : flagGroup) (name : String) (fid : Nat) (kind : AliasKind)
    (hns_inv : g.aliasInvariant → ((negStep g).1).aliasInvariant)
    (hns_long : ((negStep g).1).long = g.long)
    (hlong : alookup g.long name = Option.none)
    (h : g.aliasInvariant) :
    ((flagGroup.addGroupAliasFinish negStep g name fid kind).1).aliasInvariant := by
  rcases hn : negStep g with ⟨g1, o⟩
  have hi1 : g1.aliasInvariant := by
    have hh := hns_inv h
    rw [hn] at hh
    exact hh
  have hl1 : g1.long = g.long := by rw [hn] at hns_long; exact hns_long
  cases o with
  | ok =>
      have hi2 : (g1.tblInsert name ⟨fid, kind⟩).aliasInvariant := by
        apply inv_tblInsert name ⟨fid, kind⟩ ?_ hi1
        rw [hl1]
        exact hlong
      rcases hfa : (g1.tblInsert name ⟨fid, kind⟩).flagAddAlias fid name kind with ⟨g3, o3⟩
      have hev3 : Evolves (g1.tblInsert name ⟨fid, kind⟩) g3 := by
        have hh := evolves_flagAddAlias (g1.tblInsert name ⟨fid, kind⟩) fid name kind
        rw [hfa] at hh
        exact hh
      have ht3 : g3.tbl = (g1.tblInsert name ⟨fid, kind⟩).tbl := by
        have hh := flagAddAlias_tbl (g1.tblInsert name ⟨fid, kind⟩) fid name kind
        rw [hfa] at hh
        exact hh
      have hi3 : g3.aliasInvariant := inv_of_eq ht3 hev3.long_eq hi2
      simp only [flagGroup.addGroupAliasFinish, hn, hfa]
      cases o3 <;> simpa using hi3
  | err e =>
      simp only [flagGroup.addGroupAliasFinish, hn]
      exact hi1
  | panicked =>
      simp only [flagGroup.addGroupAliasFinish, hn]
      exact hi1

theorem inv_addGroupAliasWith (negStep : flagGroup → flagGroup × GoOutcome)
    (g : flagGroup) (name : String) (fid : Nat) (kind : AliasKind)
    (hns_inv : g.aliasInvariant → ((negStep g).1).aliasInvariant)
    (hns_long : ((negStep g).1).long = g.long)
    (h : g.aliasInvariant) :
    ((flagGroup.addGroupAliasWith negStep g name fid kind).1).aliasInvariant := by
  cases hl : alookup g.long name with
  | some existing =>
      simp only [flagGroup.addGroupAliasWith, hl]
      exact h
  | none =>
      cases ht : alookup g.tbl name with
      | none =>
          simp only [flagGroup.addGroupAliasWith, hl, ht]
          exact inv_addGroupAliasFinish negStep g name fid kind hns_inv hns_long hl h
      | some al =>
          by_cases hc : al.kind ≠ AliasKind.none ∧ (al.kind ≠ kind ∨ al.flag ≠ fid)
          · simp only [flagGroup.addGroupAliasWith, hl, ht, if_pos hc]
            exact h
          · simp only [flagGroup.addGroupAliasWith, hl, ht, if_neg hc]
            exact inv_addGroupAliasFinish negStep g name fid kind hns_inv hns_long hl h

theorem inv_addGroupAliasN (g : flagGroup) (name : String) (fid : Nat)
    (h : g.aliasInvariant) : ((g.addGroupAliasN name fid).1).aliasInvariant :=
  inv_addGroupAliasWith _ g name fid AliasKind.negative (fun hh => hh) rfl h

theorem inv_addNegativeAlias (g : flagGroup) (name : String) (fid : Nat)
    (kind : AliasKind) (h : g.aliasInvariant) :
    ((g.addNegativeAlias name fid kind).1).aliasInvariant := by
  by_cases hg : (g.flagAt fid).isSwitch = true ∧ kind ≠ AliasKind.negative
  · rcases hn : g.addGroupAliasN ("no-" ++ name) fid with ⟨g1, o⟩
    have hi1 : g1.aliasInvariant := by
      have hh := inv_addGroupAliasN g ("no-" ++ name) fid h
      rw [hn] at hh
      exact hh
    cases o with
    | ok =>
        by_cases hc : name.length ≤ 3 ∧ name.data.contains '-' = false
        · simp only [flagGroup.addNegativeAlias, if_pos hg, hn, if_pos hc]
          exact inv_addGroupAliasN g1 ("n" ++ name) fid hi1
        · simp only [flagGroup.addNegativeAlias, if_pos hg, hn, if_neg hc]
          exact hi1
    | err e =>
        simp only [flagGroup.addNegativeAlias, if_pos hg, hn]
        exact hi1
    | panicked =>
        simp only [flagGroup.addNegativeAlias, if_pos hg, hn]
        exact hi1
  · simp only [flagGroup.addNegativeAlias, if_neg hg]
    exact h

theorem inv_addGroupAlias (g : flagGroup) (name : String) (fid : Nat)
    (kind : AliasKind) (h : g.aliasInvariant) :
    ((g.addGroupAlias name fid kind).1).aliasInvariant :=
  inv_addGroupAliasWith _ g name fid kind
    (inv_addNegativeAlias g name fid kind)
    (evolves_addNegativeAlias g name fid kind).long_eq h

/-! ## Claim theorems -/

/-- C1: for every flag group and spelling, getFlagAlias first returns the
flag registered under the spelling as a canonical long name if one
exists; only otherwise is the alias table consulted, and when the
matching alias entry has the negative kind the returned invert signal is
true, so the caller binds the logical negation of the supplied or default
value. -/
theorem c1_lookup_precedence (g g1 : flagGroup) (name : String)
    (hok : g.ensureAliases = (g1, .ok)) :
    (∀ fid, alookup g1.long name = some fid →
      g.getFlagAlias name = ⟨g1, some fid, false, .ok⟩) ∧
    (alookup g1.long name = Option.none →
      ∀ al, alookup g1.tbl name = some al → al.kind ≠ AliasKind.none →
        g.getFlagAlias name =
          ⟨g1, some al.flag, decide (al.kind = AliasKind.negative), .ok⟩ ∧
        (al.kind = AliasKind.negative → (g.getFlagAlias name).invert = true)) := by
  constructor
  · intro fid hl
    simp only [flagGroup.getFlagAlias, hok, hl]
  · intro hl al hal hk
    constructor
    · simp only [flagGroup.getFlagAlias, hok, hl, hal, if_pos hk]
    · intro hneg
      simp only [flagGroup.getFlagAlias, hok, hl, hal, if_pos hk, hneg]
      simp

/-- Witness for C1 at a concrete group: the canonical long name resolves
to the flag without inversion, and the generated negative alias resolves
to the same flag with the invert signal set. -/
theorem c1_witness :
    egVerbose.getFlagAlias "verbose" = ⟨egVerboseBuilt, some 0, false, .ok⟩ ∧
    (egVerbose.getFlagAlias "no-verbose").flag = some 0 ∧
    (egVerbose.getFlagAlias "no-verbose").invert = true := by
  refine ⟨?_, ?_, ?_⟩
  · exact (c1_lookup_precedence egVerbose egVerboseBuilt "verbose" (by decide)).1 0 (by decide)
  · have h2 := (c1_lookup_precedence egVerbose egVerboseBuilt "no-verbose" (by decide)).2
      (by decide) ⟨0, AliasKind.negative⟩ (by decide) (by decide)
    rw [h2.1]
  · have h2 := (c1_lookup_precedence egVerbose egVerboseBuilt "no-verbose" (by decide)).2
      (by decide) ⟨0, AliasKind.negative⟩ (by decide) (by decide)
    exact h2.2 rfl

/-- C4: registering an alias spelling that already maps to a different
flag (as a canonical long name or as a table entry), or to the same flag
under a different kind, returns an error whose message names both flags
and the colliding spelling, and leaves the group — in particular the
table entry for that spelling and every earlier entry — unchanged (the
returned state is the input state; there is no rollback to perform). -/
theorem c4_conflict_error (g : flagGroup) (name : String) (fid : Nat)
    (kind : AliasKind) :
    (∀ fid2, alookup g.long name = some fid2 →
      g.addGroupAlias name fid kind =
        (g, .err (aliasAssocError name (g.flagName fid) (g.flagName fid2)))) ∧
    (∀ al, alookup g.long name = Option.none → alookup g.tbl name = some al →
      al.kind ≠ AliasKind.none → (al.kind ≠ kind ∨ al.flag ≠ fid) →
      g.addGroupAlias name fid kind =
        (g, .err (aliasAssocError name (g.flagName fid) (g.flagName al.flag)))) := by
  constructor
  · intro fid2 hl
    simp only [flagGroup.addGroupAlias, flagGroup.addGroupAliasWith, hl]
  · intro al hl hal hk hor
    simp only [flagGroup.addGroupAlias, flagGroup.addGroupAliasWith, hl, hal,
      if_pos (And.intro hk hor)]

/-- Witness for C4: a collision with a canonical long name and a
collision with an existing table entry of a different kind both fail with
the descriptive error and leave the group unchanged. -/
theorem c4_witness :
    egC5.addGroupAlias "y" 0 AliasKind.name =
      (egC5, .err (aliasAssocError "y" "x" "y")) ∧
    egXBuilt.addGroupAlias "nx" 0 AliasKind.name =
      (egXBuilt, .err (aliasAssocError "nx" "x" "x")) := by
  constructor
  · exact (c4_conflict_error egC5 "y" 0 AliasKind.name).1 1 (by decide)
  · exact (c4_conflict_error egXBuilt "nx" 0 AliasKind.name).2
      ⟨0, AliasKind.negative⟩ (by decide) (by decide) (by decide) (by decide)

/-- C6 (modelled from the spec; the parse driver is not among the
provided sources): when some letter of a short-flag bundle fails to
resolve against the declared shorthand letters and unmanaged mode is
enabled, the entire original token becomes unmanaged input, expansion of
the token stops, and no binding of the letters resolved earlier in the
bundle is retained. -/
theorem c6_bundle_unmanaged (decls : List ShortFlag) (tok : String)
    (hfail : resolveLetters decls (tok.data.drop 1) = Option.none) :
    expandBundle decls true tok = .unmanaged tok ∧
    (expandBundle decls true tok).boundOf = [] := by
  have h := expandBundle_unmanaged decls tok hfail
  exact ⟨h, by rw [h]; rfl⟩

/-- Witness for C6: the spec's own example — switches v and a declared,
token -var; the r fails, and the whole token is unmanaged with no
bindings retained. -/
theorem c6_witness :
    expandBundle [⟨'v', true⟩, ⟨'a', true⟩] true "-var" = .unmanaged "-var" ∧
    (expandBundle [⟨'v', true⟩, ⟨'a', true⟩] true "-var").boundOf = [] :=
  c6_bundle_unmanaged [⟨'v', true⟩, ⟨'a', true⟩] "-var" (by decide)

/-- C7: ensureAliases is idempotent — called on a group whose table is
already built it returns no error and leaves the group unchanged — and
resetAliases clears the table and rebuilds it, so its result is exactly
a fresh build (ensureAliases) over the same declarations with the table
cleared. -/
theorem c7_ensure_reset (g : flagGroup) :
    (∀ t, g.aliases = some t → g.ensureAliases = (g, .ok)) ∧
    g.resetAliases = flagGroup.ensureAliases { g with aliases := Option.none } := by
  constructor
  · intro t ht
    simp [flagGroup.ensureAliases, ht]
  · rfl

/-- Witness for C7 at a concrete built group: ensureAliases is a no-op
without error, and resetAliases rebuilds the identical table. -/
theorem c7_witness :
    egVerboseBuilt.ensureAliases = (egVerboseBuilt, .ok) ∧
    egVerboseBuilt.resetAliases = (egVerboseBuilt, .ok) := by
  constructor
  · exact (c7_ensure_reset egVerboseBuilt).1 [("no-verbose", ⟨0, AliasKind.negative⟩)] rfl
  · rw [(c7_ensure_reset egVerboseBuilt).2]
    decide

/-- C9: ArgSummary is total exactly on non-empty argument groups: on a
non-empty list it returns the space-joined summary in which every
non-required argument opens a bracket and all opened brackets are closed
after the last element, while on the empty list the code indexes
out[len(out)-1] of an empty slice — a panic, modelled by Option.none. -/
theorem c9_arg_summary (args : List ArgModel) :
    (args = [] → ArgSummary args = Option.none) ∧
    (args ≠ [] → ArgSummary args = some (argSummaryJoin args)) := by
  constructor
  · intro h
    subst h
    rfl
  · intro hne
    have hmap : args.map argPiece ≠ [] := by simpa using hne
    have hlast := List.getLast?_eq_getLast (args.map argPiece) hmap
    simp only [ArgSummary, argSummary_fold, Nat.zero_add, List.nil_append]
    rw [hlast]
    simp only [argSummaryJoin, appendToLast_eq _ _ _ hlast]

/-- Witness for C9: a two-argument group renders with the bracket
structure, and the empty group hits the panic case. -/
theorem c9_witness :
    ArgSummary [] = Option.none ∧
    ArgSummary [⟨"a", true⟩, ⟨"b", false⟩] = some "<a> [<b>]" := by
  constructor
  · exact (c9_arg_summary []).1 rfl
  · have h := (c9_arg_summary [⟨"a", true⟩, ⟨"b", false⟩]).2 (by simp)
    rw [h]
    decide

/-- C2: a successful build registers, for every flag whose value is a
boolean switch, the negative alias "no-"+name for its long name (and
"no-"+shortcut for its auto-shortcut when one applies), plus "n"+name as
a second negative alias exactly when the name is at most three characters
and hyphen-free (the step itself adds nothing else for the long name);
negative table entries only ever point at boolean switches, and the
negative-alias step is a no-op for a flag that is not a switch. -/
theorem c2_negative_alias_generation (g g' : flagGroup)
    (hnone : g.aliases = Option.none) (hok : g.ensureAliases = (g', .ok)) :
    (∀ fid, fid < g.flagOrder.length → (g.flagAt fid).isSwitch = true →
      alookup g'.tbl ("no-" ++ (g.flagAt fid).name) = some ⟨fid, AliasKind.negative⟩ ∧
      ((g.flagAt fid).name.length ≤ 3 ∧
          (g.flagAt fid).name.data.contains '-' = false →
        alookup g'.tbl ("n" ++ (g.flagAt fid).name) = some ⟨fid, AliasKind.negative⟩) ∧
      (g.effAuto fid = true →
        ¬((g.flagAt fid).shorthand = true ∧
            (g.flagAt fid).name.data.contains '-' = false) →
        ∀ sc, synthShortcut (g.flagAt fid).name = some sc →
          alookup g'.tbl ("no-" ++ sc) = some ⟨fid, AliasKind.negative⟩)) ∧
    (∀ k v, alookup g'.tbl k = some v → v.kind = AliasKind.negative →
      (g'.flagAt v.flag).isSwitch = true) ∧
    (∀ (g0 : flagGroup) (name : String) (fid : Nat) (kind : AliasKind),
      (g0.flagAt fid).isSwitch = false →
      g0.addNegativeAlias name fid kind = (g0, .ok)) := by
  have hb : flagGroup.buildFlags { g with aliases := some [] }
      (List.range g.flagOrder.length) = (g', .ok) := by
    have hh := hok
    simp only [flagGroup.ensureAliases, hnone] at hh
    exact hh
  refine ⟨?_, ?_, ?_⟩
  · intro fid hr hsw
    have hent := buildFlags_entries _ _ _ hb fid (List.mem_range.mpr hr) hr
    have hfa : ({ g with aliases := some [] } : flagGroup).flagAt fid = g.flagAt fid := rfl
    have hea : ({ g with aliases := some [] } : flagGroup).effAuto fid = g.effAuto fid := rfl
    rw [hfa, hea] at hent
    refine ⟨(hent.1 hsw).1, (hent.1 hsw).2, ?_⟩
    intro heffa hnsh sc hsc
    obtain ⟨sc2, hsc2, -, hn2⟩ := hent.2.1 heffa hnsh
    rw [hsc] at hsc2
    cases hsc2
    exact hn2 hsw
  · have hwf := wf_ensureAliases_of_none hnone
    rw [hok] at hwf
    exact hwf.2
  · intro g0 name fid kind hsw
    have hg : ¬((g0.flagAt fid).isSwitch = true ∧ kind ≠ AliasKind.negative) := by
      rw [hsw]
      simp
    simp only [flagGroup.addNegativeAlias, if_neg hg]

/-- Witness for C2 at a one-letter boolean switch: both negative forms
are registered, and the step is a no-op on a non-switch flag. -/
theorem c2_witness :
    alookup egXBuilt.tbl "no-x" = some ⟨0, AliasKind.negative⟩ ∧
    alookup egXBuilt.tbl "nx" = some ⟨0, AliasKind.negative⟩ ∧
    egAbc.addNegativeAlias "abc" 0 AliasKind.none = (egAbc, .ok) := by
  have h := c2_negative_alias_generation egX egXBuilt rfl (by decide)
  refine ⟨?_, ?_, ?_⟩
  · exact (h.1 0 (by decide) (by decide)).1
  · exact (h.1 0 (by decide) (by decide)).2.1 (by decide)
  · exact h.2.2 egAbc "abc" 0 AliasKind.none (by decide)

/-- C3 as stated is false on the code: for the flag abc with a shorthand
letter and auto-shortcut explicitly enabled, the build succeeds without
registering the shortcut a, because addShortcut skips flags that already
have a shorthand when the spelling is hyphen-free. -/
theorem c3_counterexample :
    egAbc.effAuto 0 = true ∧
    synthShortcut "abc" = some "a" ∧
    egAbc.ensureAliases = ({ egAbc with aliases := some [] }, .ok) ∧
    alookup ({ egAbc with aliases := some [] } : flagGroup).tbl "a" =
      Option.none := by
  refine ⟨by decide, by decide, by decide, by decide⟩

/-- C3 amended: for every flag with effective auto-shortcut enabled,
building the alias table registers the first-letters shortcut of the
flag's long name — except when the flag already has a shorthand letter
and the spelling is hyphen-free, in which case no shortcut is generated
for that spelling — and the same (so amended) shortcut generation is
applied to each user-declared alias, which is itself registered as a
positive alias. -/
theorem c3_shortcut_generation (g g' : flagGroup)
    (hnone : g.aliases = Option.none) (hok : g.ensureAliases = (g', .ok)) :
    ∀ fid, fid < g.flagOrder.length →
      (g.effAuto fid = true →
        ¬((g.flagAt fid).shorthand = true ∧
            (g.flagAt fid).name.data.contains '-' = false) →
        ∃ sc, synthShortcut (g.flagAt fid).name = some sc ∧
          alookup g'.tbl sc = some ⟨fid, AliasKind.shortcut⟩) ∧
      (∀ a, alookup (g.flagAt fid).aliases a = some AliasKind.name →
        alookup g'.tbl a = some ⟨fid, AliasKind.name⟩ ∧
        (g.effAuto fid = true →
          ¬((g.flagAt fid).shorthand = true ∧ a.data.contains '-' = false) →
          ∃ sc, synthShortcut a = some sc ∧
            alookup g'.tbl sc = some ⟨fid, AliasKind.shortcut⟩)) := by
  have hb : flagGroup.buildFlags { g with aliases := some [] }
      (List.range g.flagOrder.length) = (g', .ok) := by
    have hh := hok
    simp only [flagGroup.ensureAliases, hnone] at hh
    exact hh
  intro fid hr
  have hent := buildFlags_entries _ _ _ hb fid (List.mem_range.mpr hr) hr
  refine ⟨?_, hent.2.2⟩
  intro heffa hnsh
  obtain ⟨sc, hsc, he, -⟩ := hent.2.1 heffa hnsh
  exact ⟨sc, hsc, he⟩

/-- Witness for the amended C3: the hyphenated flag verbose-level gets
its shortcut vl, and its user alias very-long is registered positively
(its own shortcut is vl again, registered identically). -/
theorem c3_witness :
    alookup egVLBuilt.tbl "vl" = some ⟨0, AliasKind.shortcut⟩ ∧
    alookup egVLBuilt.tbl "very-long" = some ⟨0, AliasKind.name⟩ := by
  have h := c3_shortcut_generation egVL egVLBuilt rfl (by decide) 0 (by decide)
  obtain ⟨sc, hsc, he⟩ := h.1 (by decide) (by decide)
  have hx : synthShortcut (egVL.flagAt 0).name = some "vl" := by decide
  rw [hx] at hsc
  injection hsc with hsc
  constructor
  · rw [← hsc] at he
    exact he
  · exact (h.2 "very-long" (by decide)).1

/-- C5 as stated is false on the code: after the build of egC5 fails on
the collision of the generated negative alias no-y with the long name
no-y, the table is left non-nil, so a subsequent ensureAliases reports no
error and a subsequent resolution resolves nx against the partially
built table instead of returning the error. -/
theorem c5_counterexample :
    (egC5.ensureAliases).2 = .err (aliasAssocError "no-y" "y" "no-y") ∧
    ((egC5.ensureAliases).1).ensureAliases = ((egC5.ensureAliases).1, .ok) ∧
    ((egC5.ensureAliases).1).getFlagAlias "nx" =
      ⟨(egC5.ensureAliases).1, some 0, true, .ok⟩ := by
  refine ⟨by decide, by decide, by decide⟩

/-- C5 amended: an alias-registration conflict during the lazy build
makes that resolution return the build error to its caller, but the
partially built table remains installed: ensureAliases on the resulting
group reports no error, so later resolutions in the same parse resolve
against the partially built table rather than returning the error. -/
theorem c5_failed_build (g g1 : flagGroup) (e : String) (name : String)
    (herr : g.ensureAliases = (g1, .err e)) :
    g.getFlagAlias name = ⟨g1, Option.none, false, .err e⟩ ∧
    g1.ensureAliases = (g1, .ok) := by
  constructor
  · simp only [flagGroup.getFlagAlias, herr]
  · apply ensure_of_isSome
    have hh := @ensure_result_isSome g
    rw [herr] at hh
    exact hh

/-- Witness for the amended C5 at the concrete failing group. -/
theorem c5_witness :
    egC5.getFlagAlias "nx" =
      ⟨egC5Part, Option.none, false, .err (aliasAssocError "no-y" "y" "no-y")⟩ ∧
    egC5Part.ensureAliases = (egC5Part, .ok) :=
  c5_failed_build egC5 egC5Part (aliasAssocError "no-y" "y" "no-y") "nx" (by decide)

/-- C8: after a build that completes without error, every alias spelling
maps to exactly one flag (the table keys are duplicate-free) and no
spelling coincides with a canonical long name, so every resolvable
spelling identifies a unique flag; and this invariant is preserved by
every successful registration. -/
theorem c8_alias_invariant :
    (∀ (g : flagGroup) (name : String) (fid : Nat) (kind : AliasKind)
        (g' : flagGroup),
      g.aliasInvariant → g.addGroupAlias name fid kind = (g', .ok) →
      g'.aliasInvariant) ∧
    (∀ (g g' : flagGroup), g.aliases = Option.none →
      g.ensureAliases = (g', .ok) → g'.aliasInvariant) := by
  constructor
  · intro g name fid kind g' hinv hok
    have hh := inv_addGroupAlias g name fid kind hinv
    rw [hok] at hh
    exact hh
  · intro g g' hnone hok
    have hwf := wf_ensureAliases_of_none hnone
    rw [hok] at hwf
    exact hwf.1

/-- Witness for C8: the built table of egX satisfies the invariant, and
one further successful registration preserves it. -/
theorem c8_witness : egXBuilt.aliasInvariant ∧ egXBuiltZ.aliasInvariant := by
  have hinv : egXBuilt.aliasInvariant :=
    c8_alias_invariant.2 egX egXBuilt rfl (by decide)
  exact ⟨hinv,
    c8_alias_invariant.1 egXBuilt "z" 0 AliasKind.name egXBuiltZ hinv (by decide)⟩

/-- C10: shortcut synthesis indexes the first byte of every
hyphen-separated word, so it is total exactly when every word is
non-empty; a leading hyphen, a trailing hyphen or two consecutive hyphens
produce an empty word; when synthesis is reached with an empty word
addShortcut — and hence the alias-table build that invokes it on its
first flag — panics with an out-of-range index rather than returning an
error, while with all words non-empty addShortcut never panics. -/
theorem c10_shortcut_totality :
    (∀ name : String, (synthShortcut name).isSome = true ↔
      ∀ w ∈ splitDash name.data, w ≠ []) ∧
    (∀ t : List Char, [] ∈ splitDash ('-' :: t)) ∧
    (∀ t : List Char, [] ∈ splitDash (t ++ ['-'])) ∧
    (∀ t u : List Char, [] ∈ splitDash (t ++ '-' :: '-' :: u)) ∧
    (∀ (g : flagGroup) (name : String) (fid : Nat),
      fid < g.flagOrder.length → g.effAuto fid = true →
      ¬((g.flagAt fid).shorthand = true ∧ name.data.contains '-' = false) →
      synthShortcut name = Option.none →
      g.addShortcut name fid = (g.shortcutInit fid, .panicked)) ∧
    (∀ (g : flagGroup) (name : String) (fid : Nat),
      (synthShortcut name).isSome = true →
      (g.addShortcut name fid).2 ≠ .panicked) ∧
    (∀ (g : flagGroup) (f : FlagClause) (rest : List FlagClause),
      g.aliases = Option.none → g.flagOrder = f :: rest →
      g.effAuto 0 = true →
      ¬(f.shorthand = true ∧ f.name.data.contains '-' = false) →
      synthShortcut f.name = Option.none →
      (g.ensureAliases).2 = .panicked) := by
  refine ⟨?_, nil_mem_splitDash_leading, nil_mem_splitDash_trailing,
    nil_mem_splitDash_double, ?_, ?_, ?_⟩
  · intro name
    unfold synthShortcut
    by_cases hall : (splitDash name.data).all (fun w => !w.isEmpty) = true
    · rw [if_pos hall]
      simp only [Option.isSome_some, true_iff]
      intro w hw
      have hh := (List.all_eq_true.mp hall) w hw
      simpa using hh
    · rw [if_neg hall]
      constructor
      · intro hfalse
        exact absurd hfalse (by simp)
      · intro hforall
        exfalso
        apply hall
        rw [List.all_eq_true]
        intro w hw
        simpa using hforall w hw
  · intro g name fid hr heffa hnsh hs
    exact panic_addShortcut hr heffa hnsh hs
  · intro g name fid hs
    exact addShortcut_ne_panicked hs
  · intro g f rest hnone hord heffa hnsh hs
    have hlen : g.flagOrder.length = rest.length + 1 := by rw [hord]; rfl
    have hinit : ({ g with aliases := some [] } : flagGroup).flagAt 0 = f := by
      show (g.flagOrder[0]?).getD default = f
      rw [hord]
      simp
    have hr0 : (0 : Nat) < g.flagOrder.length := by omega
    have heffa0 : ({ g with aliases := some [] } : flagGroup).effAuto 0 = true := heffa
    have hpan := @panic_addShortcut { g with aliases := some [] }
      (({ g with aliases := some [] } : flagGroup).flagName 0) 0
      hr0 heffa0 (by rw [show ({ g with aliases := some [] } : flagGroup).flagName 0 = f.name from congrArg FlagClause.name hinit, hinit]; exact hnsh)
      (by rw [show ({ g with aliases := some [] } : flagGroup).flagName 0 = f.name from congrArg FlagClause.name hinit]; exact hs)
    simp only [flagGroup.ensureAliases, hnone]
    rw [hlen, List.range_succ_eq_map, buildFlags_cons, hpan]

/-- Witness for C10 at the concrete flag named "-x" with auto-shortcut
enabled: the table build panics, addShortcut itself panics, and the
totality criterion separates "-x" from a well-formed name. -/
theorem c10_witness :
    (egPanic.ensureAliases).2 = .panicked ∧
    egPanic.addShortcut "-x" 0 = (egPanic.shortcutInit 0, .panicked) ∧
    (synthShortcut "a-b").isSome = true := by
  refine ⟨?_, ?_, ?_⟩
  · exact c10_shortcut_totality.2.2.2.2.2.2 egPanic
      ⟨"-x", false, false, [], some true⟩ [] rfl rfl (by decide) (by decide) (by decide)
  · exact c10_shortcut_totality.2.2.2.2.1 egPanic "-x" 0 (by decide) (by decide)
      (by decide) (by decide)
  · exact (c10_shortcut_totality.1 "a-b").mpr (by decide)

end Kingpin
